import Mathlib

/-! IV-3 tube clock firmware: display core.

A shallow embedding of the display core of `Firmware/main/main.c`: the segment
table, the shared render state `tube_list`, the timer-driven multiplexer
(`isr_tubes`, `isr_leds`, `timer_on_alarm`) and the formatter (`no_time`,
`display_time`, one pass of `display_task`).

Conventions.
* `uint8_t` values are natural numbers; every store into a `uint8_t` that can
  leave the range is followed by `% 256`.
* `int` values coming from `struct tm` and the `int64_t` microsecond clock are
  integers; C's `/` and `%` on them are `Int.tdiv` and `Int.tmod`.
* C arrays of fixed size are functions on `Fin n`, so every index carries the
  proof that it is in bounds.
* The GPIO output registers are explicit state: two 32-bit banks.
* Critical sections (`portENTER_CRITICAL` / `portEXIT_CRITICAL`) and the
  settle delay `esp_rom_delay_us(40)` have no effect on sequential state and
  are left out.
-/

namespace IV3Clock

/-! ## Constants and pin mapping -/

def HIGH : Nat := 1
def LOW : Nat := 0

def PIN_GRID0 : Nat := 2
def PIN_GRID1 : Nat := 1
def PIN_GRID2 : Nat := 7
def PIN_GRID3 : Nat := 6
def PIN_SEG_A : Nat := 18
def PIN_SEG_B : Nat := 17
def PIN_SEG_C : Nat := 19
def PIN_SEG_D : Nat := 20
def PIN_SEG_E : Nat := 3
def PIN_SEG_F : Nat := 14
def PIN_SEG_G : Nat := 21
def PIN_DOT : Nat := 46
def PIN_LEDS : Nat := 10

/-! ## Segment table -/

/-- The table `digit_seg_data[11][7]`, rows 0..9 and the hyphen, columns in the
order A,B,C,D,E,F,G. -/
def digit_seg_data : Fin 11 → Fin 7 → Nat :=
  ![![HIGH, HIGH, HIGH, HIGH, HIGH, HIGH,  LOW],
    ![ LOW, HIGH, HIGH,  LOW,  LOW,  LOW,  LOW],
    ![HIGH, HIGH,  LOW, HIGH, HIGH,  LOW, HIGH],
    ![HIGH, HIGH, HIGH, HIGH,  LOW,  LOW, HIGH],
    ![ LOW, HIGH, HIGH,  LOW,  LOW, HIGH, HIGH],
    ![HIGH,  LOW, HIGH, HIGH,  LOW, HIGH, HIGH],
    ![HIGH,  LOW, HIGH, HIGH, HIGH, HIGH, HIGH],
    ![HIGH, HIGH, HIGH,  LOW,  LOW,  LOW,  LOW],
    ![HIGH, HIGH, HIGH, HIGH, HIGH, HIGH, HIGH],
    ![HIGH, HIGH, HIGH, HIGH,  LOW, HIGH, HIGH],
    ![ LOW,  LOW,  LOW,  LOW,  LOW,  LOW, HIGH]]

/-- The array `seg_pins[7]`. -/
def seg_pins : Fin 7 → Nat :=
  ![PIN_SEG_A, PIN_SEG_B, PIN_SEG_C, PIN_SEG_D, PIN_SEG_E, PIN_SEG_F, PIN_SEG_G]

/-- The array `grid_pins[4]`. -/
def grid_pins : Fin 4 → Nat :=
  ![PIN_GRID0, PIN_GRID1, PIN_GRID2, PIN_GRID3]

/-- The clamp `if (digit > 10) digit = 10;` of `isr_tubes`. -/
def clamp_digit (digit : Nat) : Nat :=
  if digit > 10 then 10 else digit

/-- The clamped digit as a row index of the 11-row table. -/
def seg_index (digit : Nat) : Fin 11 :=
  ⟨clamp_digit digit, by unfold clamp_digit; split <;> omega⟩

/-- The row selected by `isr_tubes`: the clamp followed by
`seg = digit_seg_data[digit]`. -/
def select_seg (digit : Nat) : Fin 7 → Nat :=
  digit_seg_data (seg_index digit)

/-- The standard seven-segment encoding of a decimal digit, segments in the
order A..G, written from the specification's list (0=1111110, 1=0110000, ...).
It is the reference the table is compared with. -/
def standard_seven_segment : Nat → List Nat
  | 0 => [1, 1, 1, 1, 1, 1, 0]
  | 1 => [0, 1, 1, 0, 0, 0, 0]
  | 2 => [1, 1, 0, 1, 1, 0, 1]
  | 3 => [1, 1, 1, 1, 0, 0, 1]
  | 4 => [0, 1, 1, 0, 0, 1, 1]
  | 5 => [1, 0, 1, 1, 0, 1, 1]
  | 6 => [1, 0, 1, 1, 1, 1, 1]
  | 7 => [1, 1, 1, 0, 0, 0, 0]
  | 8 => [1, 1, 1, 1, 1, 1, 1]
  | 9 => [1, 1, 1, 1, 0, 1, 1]
  | _ => []

/-- The dash pattern of the specification: only segment G on. -/
def dash_pattern : List Nat := [0, 0, 0, 0, 0, 0, 1]

/-! ## Render state and interrupt-owned variables -/

/-- The record `TUBE`: a digit (0..9, 10 = hyphen) and a dot level. -/
structure TUBE where
  digit : Nat
  dot : Nat
deriving DecidableEq, Repr

/-- The two GPIO output banks: `out` holds pins 0..31, `out1` pins 32 and up. -/
structure GPIO where
  out : Nat
  out1 : Nat
deriving DecidableEq, Repr

/-- The file-scope variables of the display core and the output registers. -/
structure State where
  tube_list : Fin 4 → TUBE
  cur_tube : Nat
  tube_toggle : Nat
  led_pwm_step : Nat
  led_pwm_off : Nat
  time_set : Bool
  gpio : GPIO

/-- The static initialisers: four hyphens without dot, `cur_tube = 3`,
`tube_toggle = 0`, `led_pwm_step = 0`, `led_pwm_off = 2`, `time_set = false`.
The content of the output registers at start-up is not fixed by the program
and is a parameter. -/
def init (g : GPIO) : State :=
  { tube_list := fun _ => { digit := 10, dot := LOW }
    cur_tube := 3
    tube_toggle := 0
    led_pwm_step := 0
    led_pwm_off := 2
    time_set := false
    gpio := g }

/-! ## GPIO writes -/

/-- A write of `mask` to a write-one-to-set register: the bits of `mask` are
set in the output register. -/
def w1ts (reg mask : Nat) : Nat := reg ||| mask

/-- A write of `mask` to a write-one-to-clear register: the bits of `mask` are
cleared in the 32-bit output register. -/
def w1tc (reg mask : Nat) : Nat := reg &&& (0xFFFFFFFF ^^^ mask)

/-- The function `gpio_set_level_isr(pin, level)`: bit `pin` of the low bank
for `pin < 32`, bit `pin - 32` of the high bank otherwise; the mask `1U << n`
is a 32-bit value. -/
def gpio_set_level_isr (g : GPIO) (pin level : Nat) : GPIO :=
  if pin < 32 then
    if level ≠ 0 then { g with out := w1ts g.out ((1 <<< pin) % 4294967296) }
    else { g with out := w1tc g.out ((1 <<< pin) % 4294967296) }
  else
    let shift := pin - 32
    if level ≠ 0 then { g with out1 := w1ts g.out1 ((1 <<< shift) % 4294967296) }
    else { g with out1 := w1tc g.out1 ((1 <<< shift) % 4294967296) }

/-- The level of an output line, read back from the output registers. -/
def line (g : GPIO) (pin : Nat) : Bool :=
  if pin < 32 then g.out.testBit pin else g.out1.testBit (pin - 32)

/-- A sequence of `gpio_set_level_isr` calls, `(pin, level)` each, applied in
order. -/
def gpio_writes (g : GPIO) (ws : List (Nat × Nat)) : GPIO :=
  ws.foldl (fun g w => gpio_set_level_isr g w.1 w.2) g

/-! ## Tube multiplexer -/

/-- The advance `cur_tube = (cur_tube + 1) & 0x03`, stored in a `uint8_t`; the
result is an index of the four-element arrays. -/
def next_tube (c : Nat) : Fin 4 :=
  ⟨((c + 1) &&& 0x03) % 256,
    Nat.lt_succ_of_le (Nat.le_trans (Nat.mod_le _ _) Nat.and_le_right)⟩

/-- The first three statements of `isr_tubes`: all grids, all segments and the
dot are driven to 0. -/
def blank_writes : List (Nat × Nat) :=
  (List.ofFn fun i : Fin 4 => (grid_pins i, 0))
    ++ (List.ofFn fun i : Fin 7 => (seg_pins i, 0))
    ++ [(PIN_DOT, 0)]

/-- The last three statements of `isr_tubes` for the fetched `digit` and `dot`
of tube `cur`: the seven segments, the dot, then the grid of `cur`. -/
def drive_writes (cur : Fin 4) (digit dot : Nat) : List (Nat × Nat) :=
  let seg := select_seg digit
  (List.ofFn fun i : Fin 7 => (seg_pins i, seg i))
    ++ [(PIN_DOT, dot)]
    ++ [(grid_pins cur, 1)]

/-- The line writes of one `isr_tubes` invocation, in program order. -/
def isr_tubes_writes (s : State) : List (Nat × Nat) :=
  let cur := next_tube s.cur_tube
  let digit := (s.tube_list cur).digit
  let dot := (s.tube_list cur).dot
  blank_writes ++ drive_writes cur digit dot

/-- The function `isr_tubes`. -/
def isr_tubes (s : State) : State :=
  { s with
    cur_tube := (next_tube s.cur_tube).val
    gpio := gpio_writes s.gpio (isr_tubes_writes s) }

/-- The function `isr_leds`. -/
def isr_leds (s : State) : State :=
  let off := s.led_pwm_off
  let g :=
    if s.led_pwm_step = off then gpio_set_level_isr s.gpio PIN_LEDS 0
    else if s.led_pwm_step = 0 then gpio_set_level_isr s.gpio PIN_LEDS 1
    else s.gpio
  let step := (s.led_pwm_step + 1) % 256
  let step := if step = 8 then 0 else step
  { s with gpio := g, led_pwm_step := step }

/-- The timer callback `timer_on_alarm`. -/
def timer_on_alarm (s : State) : State :=
  let s := { s with tube_toggle := (s.tube_toggle ^^^ 1) % 256 }
  let s := if s.tube_toggle ≠ 0 then isr_tubes s else s
  isr_leds s

/-! ## Formatter -/

/-- The fields of `struct tm` that `display_time` reads. -/
structure Tm where
  tm_sec : Int
  tm_min : Int
  tm_hour : Int
  tm_mday : Int
  tm_mon : Int
deriving DecidableEq, Repr

/-- The conversion `(uint8_t)x` of an `int`. -/
def to_uint8 (x : Int) : Nat := (x % 256).toNat

/-- The conversion `(uint32_t)x` of a 64-bit integer. -/
def to_uint32 (x : Int) : Nat := (x % 4294967296).toNat

/-- The assignment `tube_list[i].digit = v`. -/
def set_digit (s : State) (i : Fin 4) (v : Nat) : State :=
  { s with tube_list := Function.update s.tube_list i { s.tube_list i with digit := v } }

/-- The assignment `tube_list[i].dot = v`. -/
def set_dot (s : State) (i : Fin 4) (v : Nat) : State :=
  { s with tube_list := Function.update s.tube_list i { s.tube_list i with dot := v } }

/-- The function `no_time`. -/
def no_time (s : State) : State :=
  (List.finRange 4).foldl (fun s i => set_dot (set_digit s i 10) i LOW) s

/-- The value `ms = (uint32_t)((esp_timer_get_time() / 1000) % 1000)` for the
clock value `t_us`. -/
def blink_ms (t_us : Int) : Nat :=
  to_uint32 (Int.tmod (Int.tdiv t_us 1000) 1000)

/-- The value `dot = (ms < 500) ? HIGH : LOW`. -/
def blink_dot (t_us : Int) : Nat :=
  if blink_ms t_us < 500 then HIGH else LOW

/-- The function `display_time`, for the local time `tmv` returned by
`localtime_r` and the value `t_us` returned by `esp_timer_get_time`. -/
def display_time (tmv : Tm) (t_us : Int) (s : State) : State :=
  let dot := blink_dot t_us
  let u := to_uint8 tmv.tm_sec
  if u ≥ 50 ∧ u ≤ 54 then
    let u := to_uint8 tmv.tm_mday
    let s := set_dot (set_digit s 1 (u % 10)) 1 dot
    let s := set_dot (set_digit s 0 (u / 10)) 0 dot
    let u := to_uint8 (tmv.tm_mon + 1)
    let s := set_dot (set_digit s 3 (u % 10)) 3 dot
    let s := set_dot (set_digit s 2 (u / 10)) 2 dot
    s
  else
    let u := to_uint8 tmv.tm_hour
    let s := set_dot (set_digit s 1 (u % 10)) 1 dot
    let s := set_dot (set_digit s 0 (u / 10)) 0 LOW
    let u := to_uint8 tmv.tm_min
    let s := set_dot (set_digit s 3 (u % 10)) 3 LOW
    let s := set_dot (set_digit s 2 (u / 10)) 2 LOW
    s

/-- One pass of the loop of `display_task`. -/
def display_task_cycle (tmv : Tm) (t_us : Int) (s : State) : State :=
  if !s.time_set then no_time s else display_time tmv t_us s

/-- The callback `time_sync_notification_cb`. -/
def time_sync_notification_cb (s : State) : State :=
  { s with time_set := true }

/-! ## Runs of the system -/

/-- What can happen to the display core: a timer alarm, one pass of the
formatter loop with the time it reads, or the SNTP callback. -/
inductive Event where
  | tick
  | cycle (tmv : Tm) (t_us : Int)
  | time_sync

/-- The effect of one event. -/
def step (s : State) : Event → State
  | .tick => timer_on_alarm s
  | .cycle tmv t_us => display_task_cycle tmv t_us s
  | .time_sync => time_sync_notification_cb s

/-- The state after a sequence of events. -/
def run (s : State) (evs : List Event) : State :=
  evs.foldl step s

/-- The values of `cur_tube` after each of `n` successive timer alarms. -/
def cursor_trace : Nat → State → List Nat
  | 0, _ => []
  | n + 1, s => (timer_on_alarm s).cur_tube :: cursor_trace n (timer_on_alarm s)

/-- For each of `n` successive timer alarms, the tube that the alarm lights:
`some (cur_tube)` when the alarm runs `isr_tubes`, `none` when it does not. -/
def lit_trace : Nat → State → List (Option Nat)
  | 0, _ => []
  | n + 1, s =>
    (if (timer_on_alarm s).tube_toggle ≠ 0 then some (timer_on_alarm s).cur_tube else none)
      :: lit_trace n (timer_on_alarm s)

/-- The values of `cur_tube` after each of `n` successive `isr_tubes`
invocations. -/
def isr_tubes_trace : Nat → State → List Nat
  | 0, _ => []
  | n + 1, s => (isr_tubes s).cur_tube :: isr_tubes_trace n (isr_tubes s)

/-- The LED line after each of `n` successive timer alarms. -/
def led_trace : Nat → State → List Bool
  | 0, _ => []
  | n + 1, s => line (timer_on_alarm s).gpio PIN_LEDS :: led_trace n (timer_on_alarm s)

/-- The four tubes of the render state, positions 0..3. -/
def frame (s : State) : List TUBE :=
  List.ofFn s.tube_list

/-- The ranges of the fields of a broken-down time: seconds 0..60, minutes
0..59, hours 0..23, day of the month 1..31, month index 0..11. -/
def valid_tm (tmv : Tm) : Prop :=
  (0 ≤ tmv.tm_sec ∧ tmv.tm_sec ≤ 60) ∧ (0 ≤ tmv.tm_min ∧ tmv.tm_min ≤ 59)
    ∧ (0 ≤ tmv.tm_hour ∧ tmv.tm_hour ≤ 23) ∧ (1 ≤ tmv.tm_mday ∧ tmv.tm_mday ≤ 31)
    ∧ (0 ≤ tmv.tm_mon ∧ tmv.tm_mon ≤ 11)

/-- An event whose formatter pass, if it is one, reads a broken-down time in
range. -/
def valid_event : Event → Prop
  | .cycle tmv _ => valid_tm tmv
  | _ => True

/-! ## Observations of the output lines -/

/-- The level of line `q` after a sequence of `(pin, level)` writes, computed
from the writes alone: the level of the last write that names `q`, or the
level `b` the line had before when none does. -/
def line_after (ws : List (Nat × Nat)) (q : Nat) (b : Bool) : Bool :=
  ws.foldl (fun b w => if w.1 = q then decide (w.2 ≠ 0) else b) b

/-- The number of grid lines that are active in an output state. -/
def grids_active (g : GPIO) : Nat :=
  (List.ofFn fun j : Fin 4 => line g (grid_pins j)).count true

/-! ## URL decoding

A C string is the list of its bytes before the terminating NUL; a read at or
past the end of the list reads the terminator, 0. -/

/-- The C library's `isxdigit` in the "C" locale: '0'..'9', 'A'..'F',
'a'..'f'. -/
def isxdigit (c : Nat) : Bool :=
  (48 ≤ c && c ≤ 57) || (65 ≤ c && c ≤ 70) || (97 ≤ c && c ≤ 102)

/-- The C library's `tolower` in the "C" locale. -/
def tolower (c : Nat) : Nat :=
  if 65 ≤ c ∧ c ≤ 90 then c + 32 else c

/-- The two statements `a = tolower(a); a = (a >= 'a') ? (a - 'a' + 10) : (a - '0');`
of `url_decode`. They run only on characters that passed `isxdigit`, where the
subtractions do not go below zero. -/
def hex_nibble (a : Nat) : Nat :=
  let a := tolower a
  if a ≥ 97 then a - 97 + 10 else a - 48

/-- The function `url_decode`: the bytes it writes to `dst` before the final
NUL, for the string `src`. -/
def url_decode : List Nat → List Nat
  | [] => []
  | c :: rest =>
    if c = 0 then []
    else
      let a := rest.headD 0
      let b := rest.tail.headD 0
      if c = 37 ∧ a ≠ 0 ∧ b ≠ 0 ∧ isxdigit a = true ∧ isxdigit b = true then
        ((16 * hex_nibble a + hex_nibble b) % 256) :: url_decode (rest.drop 2)
      else if c = 43 then 32 :: url_decode rest
      else c :: url_decode rest
termination_by src => src.length
decreasing_by
  all_goals simp_wf
  all_goals omega

/-- The value of a hexadecimal digit character, as a table: '0'..'9' are
0..9, 'A'..'F' and 'a'..'f' are 10..15. It is the reference the decoded byte
is compared with. -/
def hexval : Nat → Nat
  | 48 => 0 | 49 => 1 | 50 => 2 | 51 => 3 | 52 => 4
  | 53 => 5 | 54 => 6 | 55 => 7 | 56 => 8 | 57 => 9
  | 65 => 10 | 66 => 11 | 67 => 12 | 68 => 13 | 69 => 14 | 70 => 15
  | 97 => 10 | 98 => 11 | 99 => 12 | 100 => 13 | 101 => 14 | 102 => 15
  | _ => 0

/-- The string contains a valid escape: a '%' directly followed by two
hexadecimal digits. -/
def has_escape (src : List Nat) : Prop :=
  ∃ x y, isxdigit x = true ∧ isxdigit y = true ∧ [37, x, y] <:+: src

/-! ## Interleaving of the formatter with the fetch of `isr_tubes`

The critical sections are modelled by their mutual exclusion: a thread gets
past `portENTER_CRITICAL` only while the other does not hold `tube_mux`. -/

/-- One store to a field of `tube_list`. -/
inductive FieldWrite where
  | digit (i : Fin 4) (v : Nat)
  | dot (i : Fin 4) (v : Nat)

/-- The effect of one store on `tube_list`. -/
def FieldWrite.apply (tl : Fin 4 → TUBE) : FieldWrite → Fin 4 → TUBE
  | .digit i v => Function.update tl i { tl i with digit := v }
  | .dot i v => Function.update tl i { tl i with dot := v }

/-- The stores of `no_time` between `portENTER_CRITICAL` and
`portEXIT_CRITICAL`, in program order. -/
def no_time_stores : List FieldWrite :=
  (List.finRange 4).flatMap fun i => [.digit i 10, .dot i LOW]

/-- The stores of `display_time` between `portENTER_CRITICAL` and
`portEXIT_CRITICAL`, in program order. -/
def display_time_stores (tmv : Tm) (t_us : Int) : List FieldWrite :=
  let dot := blink_dot t_us
  let u := to_uint8 tmv.tm_sec
  if u ≥ 50 ∧ u ≤ 54 then
    let u := to_uint8 tmv.tm_mday
    let v := to_uint8 (tmv.tm_mon + 1)
    [.digit 1 (u % 10), .dot 1 dot, .digit 0 (u / 10), .dot 0 dot,
     .digit 3 (v % 10), .dot 3 dot, .digit 2 (v / 10), .dot 2 dot]
  else
    let u := to_uint8 tmv.tm_hour
    let v := to_uint8 tmv.tm_min
    [.digit 1 (u % 10), .dot 1 dot, .digit 0 (u / 10), .dot 0 LOW,
     .digit 3 (v % 10), .dot 3 LOW, .digit 2 (v / 10), .dot 2 LOW]

/-- What one pass of the loop of `display_task` reads before it enters the
critical section: `time_set`, the local time and the microsecond clock. -/
structure Pass where
  time_set : Bool
  tmv : Tm
  t_us : Int

/-- The stores of one pass of `display_task`. -/
def pass_stores (p : Pass) : List FieldWrite :=
  if !p.time_set then no_time_stores else display_time_stores p.tmv p.t_us

/-- One pass of `display_task` run without interruption. -/
def pass_seq (s : State) (p : Pass) : State :=
  display_task_cycle p.tmv p.t_us { s with time_set := p.time_set }

/-- The state after a sequence of passes, each run without interruption. -/
def frames_after (s : State) (ps : List Pass) : State :=
  ps.foldl pass_seq s

/-- Where the interrupt handler is in the fetch of `isr_tubes`, with the
index `cur_tube` it fetches and what it has read so far. -/
inductive IsrPc where
  | idle
  | waiting (i : Fin 4)
  | entered (i : Fin 4)
  | have_digit (i : Fin 4) (digit : Nat)
  | have_both (i : Fin 4) (digit dot : Nat)
deriving DecidableEq, Repr

/-- A completed fetch: the tube index, the two values read, and how many
passes the task had still to start when the handler left its critical
section. -/
structure Fetch where
  tube : Fin 4
  digit : Nat
  dot : Nat
  pending : Nat
deriving DecidableEq, Repr

/-- The shared render state with the two threads that access it: the
formatter task, outside its critical section (`none`) or inside it with the
stores still to do, and the interrupt handler. -/
structure Conc where
  tube_list : Fin 4 → TUBE
  cur_tube : Nat
  task : Option (List FieldWrite)
  passes : List Pass
  isr : IsrPc
  fetched : List Fetch

/-- The interrupt handler holds `tube_mux`. -/
def isr_holds (c : Conc) : Bool :=
  match c.isr with
  | .idle => false
  | .waiting _ => false
  | _ => true

/-- One step of the formatter task. Outside the critical section it starts the
next pass by `portENTER_CRITICAL`, which does not proceed while the interrupt
handler holds `tube_mux`; inside it does the next store, or leaves by
`portEXIT_CRITICAL` when none is left. -/
def task_step (c : Conc) : Conc :=
  match c.task with
  | none =>
    match c.passes with
    | [] => c
    | p :: ps =>
      if isr_holds c then c
      else { c with task := some (pass_stores p), passes := ps }
  | some [] => { c with task := none }
  | some (w :: rest) => { c with tube_list := w.apply c.tube_list, task := some rest }

/-- One step of the interrupt handler in `isr_tubes`: the advance of
`cur_tube`, `portENTER_CRITICAL_ISR` (which does not proceed while the task
holds `tube_mux`), the read of `digit`, the read of `dot`, and
`portEXIT_CRITICAL_ISR`, after which the fetch is complete. -/
def isr_step (c : Conc) : Conc :=
  match c.isr with
  | .idle =>
    { c with cur_tube := (next_tube c.cur_tube).val, isr := .waiting (next_tube c.cur_tube) }
  | .waiting i => if c.task.isSome then c else { c with isr := .entered i }
  | .entered i => { c with isr := .have_digit i (c.tube_list i).digit }
  | .have_digit i d => { c with isr := .have_both i d (c.tube_list i).dot }
  | .have_both i d dt =>
    { c with isr := .idle, fetched := ⟨i, d, dt, c.passes.length⟩ :: c.fetched }

/-- The two threads. -/
inductive Thread where
  | task
  | isr
deriving DecidableEq, Repr

/-- One step of the thread the schedule picks. -/
def conc_step (c : Conc) : Thread → Conc
  | .task => task_step c
  | .isr => isr_step c

/-- The configuration after a schedule. -/
def conc_run (c : Conc) (sched : List Thread) : Conc :=
  sched.foldl conc_step c

/-- The configuration at start: both threads outside their critical
sections, nothing fetched. -/
def conc_init (s : State) (passes : List Pass) : Conc :=
  { tube_list := s.tube_list, cur_tube := s.cur_tube, task := none, passes := passes,
    isr := .idle, fetched := [] }

/-- A fetch that shows the two fields of its tube as they are after exactly
the passes that were complete when it was made: all but the `pending` ones,
each run without interruption. -/
def fetch_whole (s : State) (passes : List Pass) (f : Fetch) : Prop :=
  f.pending ≤ passes.length
    ∧ f.digit
        = ((frames_after s (passes.take (passes.length - f.pending))).tube_list f.tube).digit
    ∧ f.dot
        = ((frames_after s (passes.take (passes.length - f.pending))).tube_list f.tube).dot

/-- What holds of every configuration of a run: the fetches completed so far
are whole, and for some number `k` of completed passes the task is either
outside its critical section with `tube_list` as after `k` passes, or inside
with the remaining stores leading to `tube_list` as after `k + 1` passes and
the handler not holding the lock; what the handler has read so far are fields
of `tube_list` as after `k` passes. -/
def conc_inv (s : State) (P : List Pass) (c : Conc) : Prop :=
  (∀ f ∈ c.fetched, fetch_whole s P f)
    ∧ ∃ k, k ≤ P.length
      ∧ (match c.task with
          | none => c.passes = P.drop k ∧ c.tube_list = (frames_after s (P.take k)).tube_list
          | some rest => k < P.length ∧ c.passes = P.drop (k + 1)
              ∧ rest.foldl FieldWrite.apply c.tube_list
                  = (frames_after s (P.take (k + 1))).tube_list
              ∧ isr_holds c = false)
      ∧ (match c.isr with
          | .have_digit i d => d = ((frames_after s (P.take k)).tube_list i).digit
          | .have_both i d dt => d = ((frames_after s (P.take k)).tube_list i).digit
              ∧ dt = ((frames_after s (P.take k)).tube_list i).dot
          | _ => True)

/-! ## Theorems: segment table -/

/-- C1: for every digit d in 0..9 the table row `digit_seg_data[d]`, read in
the order A..G, is the standard seven-segment encoding of d. -/
theorem digit_seg_data_standard :
    ∀ d : Fin 10, List.ofFn (digit_seg_data (Fin.castLE (by decide) d))
      = standard_seven_segment d.val := by
  decide

/-- C2: every digit value d >= 10 selects the dash pattern (only segment G
on), which is neither all-off nor the pattern of digit 0; and the clamped
index is a row of the 11-row table for every input. -/
theorem select_seg_dash (d : Nat) (h : 10 ≤ d) :
    List.ofFn (select_seg d) = dash_pattern
      ∧ dash_pattern = [LOW, LOW, LOW, LOW, LOW, LOW, HIGH]
      ∧ dash_pattern ≠ List.replicate 7 LOW
      ∧ dash_pattern ≠ List.ofFn (select_seg 0)
      ∧ ∀ e : Nat, clamp_digit e < 11 := by
  have hidx : seg_index d = 10 := by
    apply Fin.ext
    show clamp_digit d = 10
    unfold clamp_digit
    split <;> omega
  refine ⟨?_, by decide, by decide, by decide, ?_⟩
  · unfold select_seg
    rw [hidx]
    decide
  · intro e
    unfold clamp_digit
    split <;> omega

/-- Witness of C2 at the largest 8-bit value. -/
theorem select_seg_dash_witness :
    10 ≤ 255 ∧ List.ofFn (select_seg 255) = dash_pattern :=
  ⟨by decide, (select_seg_dash 255 (by decide)).1⟩

/-! ## Theorems: multiplex cursor -/

theorem next_tube_val (c : Nat) : (next_tube c).val = (c + 1) % 4 := by
  show ((c + 1) &&& 0x03) % 256 = (c + 1) % 4
  have h := Nat.and_pow_two_sub_one_eq_mod (c + 1) 2
  norm_num at h
  rw [h]
  omega

theorem isr_tubes_cur_tube (s : State) : (isr_tubes s).cur_tube = (s.cur_tube + 1) % 4 :=
  next_tube_val s.cur_tube

theorem isr_leds_cur_tube (s : State) : (isr_leds s).cur_tube = s.cur_tube := rfl

theorem isr_leds_tube_toggle (s : State) : (isr_leds s).tube_toggle = s.tube_toggle := rfl

theorem timer_on_alarm_tube_toggle (s : State) :
    (timer_on_alarm s).tube_toggle = (s.tube_toggle ^^^ 1) % 256 := by
  unfold timer_on_alarm
  simp only [isr_leds_tube_toggle]
  split <;> rfl

theorem timer_on_alarm_cur_tube (s : State) :
    (timer_on_alarm s).cur_tube
      = if (s.tube_toggle ^^^ 1) % 256 ≠ 0 then (s.cur_tube + 1) % 4 else s.cur_tube := by
  unfold timer_on_alarm
  simp only [isr_leds_cur_tube]
  split
  · exact isr_tubes_cur_tube _
  · rfl

/-- The cursor traces of two states that agree on `tube_toggle` and
`cur_tube` are the same. -/
theorem cursor_trace_congr (n : Nat) :
    ∀ s s' : State, s.tube_toggle = s'.tube_toggle → s.cur_tube = s'.cur_tube →
      cursor_trace n s = cursor_trace n s' ∧ lit_trace n s = lit_trace n s' := by
  induction n with
  | zero => intro s s' _ _; exact ⟨rfl, rfl⟩
  | succ n ih =>
    intro s s' ht hc
    have ht' : (timer_on_alarm s).tube_toggle = (timer_on_alarm s').tube_toggle := by
      rw [timer_on_alarm_tube_toggle, timer_on_alarm_tube_toggle, ht]
    have hc' : (timer_on_alarm s).cur_tube = (timer_on_alarm s').cur_tube := by
      rw [timer_on_alarm_cur_tube, timer_on_alarm_cur_tube, ht, hc]
    obtain ⟨h1, h2⟩ := ih _ _ ht' hc'
    constructor
    · show (timer_on_alarm s).cur_tube :: cursor_trace n (timer_on_alarm s) = _
      rw [hc', h1]
      rfl
    · show (if (timer_on_alarm s).tube_toggle ≠ 0 then some (timer_on_alarm s).cur_tube else none)
          :: lit_trace n (timer_on_alarm s) = _
      rw [hc', ht', h2]
      rfl

theorem display_time_tube_toggle (tmv : Tm) (t : Int) (s : State) :
    (display_time tmv t s).tube_toggle = s.tube_toggle := by
  simp only [display_time]
  split <;> rfl

theorem display_time_cur_tube (tmv : Tm) (t : Int) (s : State) :
    (display_time tmv t s).cur_tube = s.cur_tube := by
  simp only [display_time]
  split <;> rfl

theorem display_time_time_set (tmv : Tm) (t : Int) (s : State) :
    (display_time tmv t s).time_set = s.time_set := by
  simp only [display_time]
  split <;> rfl

theorem display_task_cycle_tube_toggle (tmv : Tm) (t : Int) (s : State) :
    (display_task_cycle tmv t s).tube_toggle = s.tube_toggle := by
  unfold display_task_cycle
  split
  · rfl
  · exact display_time_tube_toggle tmv t s

theorem display_task_cycle_cur_tube (tmv : Tm) (t : Int) (s : State) :
    (display_task_cycle tmv t s).cur_tube = s.cur_tube := by
  unfold display_task_cycle
  split
  · rfl
  · exact display_time_cur_tube tmv t s

theorem step_tube_toggle_le (s : State) (e : Event) (h : s.tube_toggle ≤ 1) :
    (step s e).tube_toggle ≤ 1 := by
  cases e with
  | tick =>
    show (timer_on_alarm s).tube_toggle ≤ 1
    rw [timer_on_alarm_tube_toggle]
    have h01 : s.tube_toggle = 0 ∨ s.tube_toggle = 1 := by omega
    rcases h01 with h0 | h1
    · rw [h0]; decide
    · rw [h1]; decide
  | cycle tmv t =>
    rw [show (step s (Event.cycle tmv t)).tube_toggle = s.tube_toggle from
      display_task_cycle_tube_toggle tmv t s]
    exact h
  | time_sync => exact h

theorem step_cur_tube_lt (s : State) (e : Event) (h : s.cur_tube < 4) :
    (step s e).cur_tube < 4 := by
  cases e with
  | tick =>
    show (timer_on_alarm s).cur_tube < 4
    rw [timer_on_alarm_cur_tube]
    split
    · omega
    · exact h
  | cycle tmv t =>
    rw [show (step s (Event.cycle tmv t)).cur_tube = s.cur_tube from
      display_task_cycle_cur_tube tmv t s]
    exact h
  | time_sync => exact h

/-- Every state reached from the initial one has `tube_toggle` in {0,1} and
`cur_tube` in 0..3. -/
theorem run_cursor_inv (evs : List Event) :
    ∀ s : State, s.tube_toggle ≤ 1 → s.cur_tube < 4 →
      (run s evs).tube_toggle ≤ 1 ∧ (run s evs).cur_tube < 4 := by
  induction evs with
  | nil => intro s h1 h2; exact ⟨h1, h2⟩
  | cons e evs ih =>
    intro s h1 h2
    exact ih (step s e) (step_tube_toggle_le s e h1) (step_cur_tube_lt s e h2)

/-- The cursor behaviour over eight alarms, on the states that differ from the
initial one only in `tube_toggle` and `cur_tube`. -/
theorem cursor_eight_ticks_probe :
    ∀ t, t < 2 → ∀ c, c < 4 →
      lit_trace 8 { init ⟨0, 0⟩ with tube_toggle := t, cur_tube := c }
          = (if t = 0 then
              [some ((c + 1) % 4), none, some ((c + 2) % 4), none,
               some ((c + 3) % 4), none, some ((c + 4) % 4), none]
            else
              [none, some ((c + 1) % 4), none, some ((c + 2) % 4),
               none, some ((c + 3) % 4), none, some ((c + 4) % 4)])
        ∧ ∀ j : Fin 4,
            (cursor_trace 8 { init ⟨0, 0⟩ with tube_toggle := t, cur_tube := c }).count j.val
              = 2 := by
  decide

/-- C3 as stated fails: the four alarms that follow start-up leave the cursor
at 0, 0, 1, 1, light only tubes 0 and 1, and never reach positions 2 and 3. -/
theorem cursor_four_ticks_counterexample :
    cursor_trace 4 (init ⟨0, 0⟩) = [0, 0, 1, 1]
      ∧ lit_trace 4 (init ⟨0, 0⟩) = [some 0, none, some 1, none]
      ∧ ¬ (∀ j : Fin 4, (cursor_trace 4 (init ⟨0, 0⟩)).count j.val = 1) := by
  decide

/-- C4: one invocation of `isr_tubes` moves `cur_tube` to (c + 1) mod 4, a
value in 0..3; four consecutive invocations visit (c+1), (c+2), (c+3), (c+4)
mod 4, so each of 0,1,2,3 exactly once; from the initial value 3 the first
tube is 0. -/
theorem isr_tubes_advances (s : State) :
    (isr_tubes s).cur_tube = (s.cur_tube + 1) % 4
      ∧ (isr_tubes s).cur_tube < 4
      ∧ isr_tubes_trace 4 s
          = [(s.cur_tube + 1) % 4, (s.cur_tube + 2) % 4,
             (s.cur_tube + 3) % 4, (s.cur_tube + 4) % 4]
      ∧ (∀ j : Fin 4, (isr_tubes_trace 4 s).count j.val = 1)
      ∧ ∀ g : GPIO, (isr_tubes (init g)).cur_tube = 0 := by
  have htrace : isr_tubes_trace 4 s
      = [(s.cur_tube + 1) % 4, (s.cur_tube + 2) % 4,
         (s.cur_tube + 3) % 4, (s.cur_tube + 4) % 4] := by
    simp only [isr_tubes_trace, isr_tubes_cur_tube]
    have e2 : ((s.cur_tube + 1) % 4 + 1) % 4 = (s.cur_tube + 2) % 4 := by omega
    have e3 : ((s.cur_tube + 2) % 4 + 1) % 4 = (s.cur_tube + 3) % 4 := by omega
    have e4 : ((s.cur_tube + 3) % 4 + 1) % 4 = (s.cur_tube + 4) % 4 := by omega
    rw [e2, e3, e4]
  refine ⟨isr_tubes_cur_tube s, ?_, htrace, ?_, ?_⟩
  · rw [isr_tubes_cur_tube]
    omega
  · rw [htrace]
    have hr : ∀ r, r < 4 → ∀ j : Fin 4,
        ([(r + 1) % 4, (r + 2) % 4, (r + 3) % 4, (r + 4) % 4] : List Nat).count j.val = 1 := by
      decide
    have e1 : (s.cur_tube + 1) % 4 = (s.cur_tube % 4 + 1) % 4 := by omega
    have e2 : (s.cur_tube + 2) % 4 = (s.cur_tube % 4 + 2) % 4 := by omega
    have e3 : (s.cur_tube + 3) % 4 = (s.cur_tube % 4 + 3) % 4 := by omega
    have e4 : (s.cur_tube + 4) % 4 = (s.cur_tube % 4 + 4) % 4 := by omega
    rw [e1, e2, e3, e4]
    exact hr (s.cur_tube % 4) (Nat.mod_lt _ (by decide))
  · intro g
    rw [isr_tubes_cur_tube]
    show (3 + 1) % 4 = 0
    decide

/-! ## Theorems: output lines -/

theorem testBit_mask (p q : Nat) :
    ((1 <<< p) % 4294967296).testBit q = (decide (q < 32) && decide (p = q)) := by
  rw [show (4294967296 : Nat) = 2 ^ 32 from by norm_num, Nat.testBit_mod_two_pow,
    Nat.one_shiftLeft, Nat.testBit_two_pow]

theorem testBit_ones (q : Nat) : (0xFFFFFFFF : Nat).testBit q = decide (q < 32) := by
  rw [show (0xFFFFFFFF : Nat) = 2 ^ 32 - 1 from by norm_num, Nat.testBit_two_pow_sub_one]

theorem testBit_w1ts (reg p q : Nat) :
    (w1ts reg ((1 <<< p) % 4294967296)).testBit q
      = (reg.testBit q || (decide (q < 32) && decide (p = q))) := by
  unfold w1ts
  rw [Nat.testBit_or, testBit_mask]

theorem testBit_w1tc (reg p q : Nat) :
    (w1tc reg ((1 <<< p) % 4294967296)).testBit q
      = (reg.testBit q && (decide (q < 32) && !decide (p = q))) := by
  unfold w1tc
  rw [Nat.testBit_and, Nat.testBit_xor, testBit_mask, testBit_ones]
  by_cases h1 : q < 32 <;> by_cases h2 : p = q <;> simp [h1, h2]

/-- A write to one pin leaves every other line below 64 as it was. -/
theorem line_set_other (g : GPIO) (pin level q : Nat) (hne : pin ≠ q) (hq : q < 64) :
    line (gpio_set_level_isr g pin level) q = line g q := by
  unfold gpio_set_level_isr line
  by_cases hp : pin < 32 <;> by_cases hq32 : q < 32 <;> by_cases hl : level = 0
  all_goals simp only [hp, hq32, hl, ne_eq, not_true_eq_false, not_false_eq_true, ↓reduceIte]
  · rw [testBit_w1tc]; simp [hne, hq32]
  · rw [testBit_w1ts]; simp [hne]
  · rw [testBit_w1tc]
    have h1 : pin - 32 ≠ q - 32 := by omega
    have h2 : q - 32 < 32 := by omega
    simp [h1, h2]
  · rw [testBit_w1ts]
    have : pin - 32 ≠ q - 32 := by omega
    simp [this]

/-- A write to a pin below 64 sets its line to the written level. -/
theorem line_set_same (g : GPIO) (pin level : Nat) (hpin : pin < 64) :
    line (gpio_set_level_isr g pin level) pin = decide (level ≠ 0) := by
  unfold gpio_set_level_isr line
  by_cases hp : pin < 32 <;> by_cases hl : level = 0
  all_goals simp only [hp, hl, ne_eq, not_true_eq_false, not_false_eq_true, ↓reduceIte]
  · rw [testBit_w1tc]; simp
  · rw [testBit_w1ts]; simp [hp]
  · rw [testBit_w1tc]; simp
  · rw [testBit_w1ts]
    have h2 : pin - 32 < 32 := by omega
    simp [h2]

/-- A sequence of writes leaves a line alone when none of them names it. -/
theorem line_gpio_writes_other (q : Nat) (hq : q < 64) (ws : List (Nat × Nat)) :
    ∀ g : GPIO, (∀ w ∈ ws, w.1 ≠ q) → line (gpio_writes g ws) q = line g q := by
  induction ws with
  | nil => intro g _; rfl
  | cons w ws ih =>
    intro g h
    show line (gpio_writes (gpio_set_level_isr g w.1 w.2) ws) q = line g q
    rw [ih _ (fun x hx => h x (List.mem_cons_of_mem _ hx))]
    exact line_set_other g w.1 w.2 q (h w (List.mem_cons_self _ _)) hq

theorem isr_tubes_writes_pins (s : State) :
    (isr_tubes_writes s).map Prod.fst
      = [PIN_GRID0, PIN_GRID1, PIN_GRID2, PIN_GRID3,
         PIN_SEG_A, PIN_SEG_B, PIN_SEG_C, PIN_SEG_D, PIN_SEG_E, PIN_SEG_F, PIN_SEG_G,
         PIN_DOT,
         PIN_SEG_A, PIN_SEG_B, PIN_SEG_C, PIN_SEG_D, PIN_SEG_E, PIN_SEG_F, PIN_SEG_G,
         PIN_DOT, grid_pins (next_tube s.cur_tube)] := by
  simp [isr_tubes_writes, blank_writes, drive_writes, List.ofFn_succ, grid_pins, seg_pins]

/-- No write of `isr_tubes` names the LED pin. -/
theorem isr_tubes_writes_not_led (s : State) : ∀ w ∈ isr_tubes_writes s, w.1 ≠ PIN_LEDS := by
  intro w hw
  have hmem : w.1 ∈ (isr_tubes_writes s).map Prod.fst := List.mem_map_of_mem Prod.fst hw
  rw [isr_tubes_writes_pins] at hmem
  have hgrid : ∀ c : Fin 4, grid_pins c ≠ PIN_LEDS := by decide
  have hc := hgrid (next_tube s.cur_tube)
  generalize grid_pins (next_tube s.cur_tube) = gp at hmem hc
  simp only [List.mem_cons, List.mem_singleton, List.not_mem_nil, or_false] at hmem
  rcases hmem with h | h | h | h | h | h | h | h | h | h | h | h | h | h | h | h | h | h | h | h | h
  all_goals first
    | (rw [h]; exact hc)
    | (rw [h]; decide)

theorem isr_tubes_led_line (s : State) :
    line (isr_tubes s).gpio PIN_LEDS = line s.gpio PIN_LEDS :=
  line_gpio_writes_other PIN_LEDS (by decide) (isr_tubes_writes s) s.gpio
    (isr_tubes_writes_not_led s)

theorem isr_leds_led_line (s : State) :
    line (isr_leds s).gpio PIN_LEDS
      = if s.led_pwm_step = s.led_pwm_off then false
        else if s.led_pwm_step = 0 then true
        else line s.gpio PIN_LEDS := by
  show line (if s.led_pwm_step = s.led_pwm_off then gpio_set_level_isr s.gpio PIN_LEDS 0
      else if s.led_pwm_step = 0 then gpio_set_level_isr s.gpio PIN_LEDS 1
      else s.gpio) PIN_LEDS = _
  split
  · rw [line_set_same _ _ _ (by decide)]; rfl
  · split
    · rw [line_set_same _ _ _ (by decide)]; rfl
    · rfl

theorem timer_on_alarm_led_pwm_off (s : State) :
    (timer_on_alarm s).led_pwm_off = s.led_pwm_off := by
  unfold timer_on_alarm
  show (if _ then _ else _ : State).led_pwm_off = _
  split <;> rfl

theorem timer_on_alarm_led_pwm_step (s : State) :
    (timer_on_alarm s).led_pwm_step
      = if (s.led_pwm_step + 1) % 256 = 8 then 0 else (s.led_pwm_step + 1) % 256 := by
  unfold timer_on_alarm
  show (if (_ + 1) % 256 = 8 then 0 else (_ + 1) % 256) = _
  split <;> rfl

theorem timer_on_alarm_led_line (s : State) :
    line (timer_on_alarm s).gpio PIN_LEDS
      = if s.led_pwm_step = s.led_pwm_off then false
        else if s.led_pwm_step = 0 then true
        else line s.gpio PIN_LEDS := by
  unfold timer_on_alarm
  rw [isr_leds_led_line]
  split
  · rw [isr_tubes_led_line]; rfl
  · rfl

/-! ## Theorems: LED PWM -/

/-- The LED trace and the PWM cursor of two states that agree on
`led_pwm_step`, `led_pwm_off` and the LED line are the same. -/
theorem led_trace_congr (n : Nat) :
    ∀ s s' : State, s.led_pwm_step = s'.led_pwm_step → s.led_pwm_off = s'.led_pwm_off →
      line s.gpio PIN_LEDS = line s'.gpio PIN_LEDS →
      led_trace n s = led_trace n s'
        ∧ (timer_on_alarm^[n] s).led_pwm_step = (timer_on_alarm^[n] s').led_pwm_step
        ∧ (timer_on_alarm^[n] s).led_pwm_off = (timer_on_alarm^[n] s').led_pwm_off := by
  induction n with
  | zero => intro s s' h1 h2 _; exact ⟨rfl, h1, h2⟩
  | succ n ih =>
    intro s s' hs ho hl
    have hs' : (timer_on_alarm s).led_pwm_step = (timer_on_alarm s').led_pwm_step := by
      rw [timer_on_alarm_led_pwm_step, timer_on_alarm_led_pwm_step, hs]
    have ho' : (timer_on_alarm s).led_pwm_off = (timer_on_alarm s').led_pwm_off := by
      rw [timer_on_alarm_led_pwm_off, timer_on_alarm_led_pwm_off, ho]
    have hl' : line (timer_on_alarm s).gpio PIN_LEDS = line (timer_on_alarm s').gpio PIN_LEDS := by
      rw [timer_on_alarm_led_line, timer_on_alarm_led_line, hs, ho, hl]
    obtain ⟨h1, h2, h3⟩ := ih _ _ hs' ho' hl'
    refine ⟨?_, ?_, ?_⟩
    · show line (timer_on_alarm s).gpio PIN_LEDS :: led_trace n (timer_on_alarm s) = _
      rw [hl', h1]
      rfl
    · rw [Function.iterate_succ_apply, Function.iterate_succ_apply]
      exact h2
    · rw [Function.iterate_succ_apply, Function.iterate_succ_apply]
      exact h3

/-- One PWM frame on the states that differ from the initial one only in
`led_pwm_off` and the level of the LED line. -/
theorem led_pwm_frame_probe :
    ∀ k, k < 9 → ∀ b : Bool,
      led_trace 8 { init ⟨if b then 1024 else 0, 0⟩ with led_pwm_off := k }
          = (List.range 8).map (fun p => decide (p < k))
        ∧ (timer_on_alarm^[8]
            { init ⟨if b then 1024 else 0, 0⟩ with led_pwm_off := k }).led_pwm_step = 0
        ∧ (timer_on_alarm^[8]
            { init ⟨if b then 1024 else 0, 0⟩ with led_pwm_off := k }).led_pwm_off = k := by
  decide

/-- C5: with `led_pwm_off = k` for k in 0..8 and `led_pwm_step = 0`, whatever
the rest of the state (either value of `tube_toggle`, any level of the LED
line), the LED line after the alarm at phase p of the next eight alarms is on
exactly when p < k, and after the eight alarms `led_pwm_step` is 0 again with
`led_pwm_off` unchanged. -/
theorem led_pwm_frame (s : State) (k : Nat) (hk : k ≤ 8) (hoff : s.led_pwm_off = k)
    (hstep : s.led_pwm_step = 0) :
    led_trace 8 s = (List.range 8).map (fun p => decide (p < k))
      ∧ (timer_on_alarm^[8] s).led_pwm_step = 0
      ∧ (timer_on_alarm^[8] s).led_pwm_off = k := by
  have hb : ∀ b : Bool, line (⟨if b then 1024 else 0, 0⟩ : GPIO) PIN_LEDS = b := by decide
  obtain ⟨h1, h2, h3⟩ := led_trace_congr 8 s
    { init ⟨if line s.gpio PIN_LEDS then 1024 else 0, 0⟩ with led_pwm_off := k }
    hstep hoff (hb (line s.gpio PIN_LEDS)).symm
  rw [h1, h2, h3]
  exact led_pwm_frame_probe k (by omega) (line s.gpio PIN_LEDS)

/-- Witness of C5: the start-up state has `led_pwm_off = 2`, so the LED is on
for phases 0 and 1 and off for phases 2..7. -/
theorem led_pwm_frame_witness :
    2 ≤ 8 ∧ (init ⟨0, 0⟩).led_pwm_off = 2 ∧ (init ⟨0, 0⟩).led_pwm_step = 0
      ∧ led_trace 8 (init ⟨0, 0⟩) = [true, true, false, false, false, false, false, false]
      ∧ (timer_on_alarm^[8] (init ⟨0, 0⟩)).led_pwm_step = 0
      ∧ (timer_on_alarm^[8] (init ⟨0, 0⟩)).led_pwm_off = 2 :=
  ⟨by decide, rfl, rfl, led_pwm_frame (init ⟨0, 0⟩) 2 (by decide) rfl rfl⟩

/-! ## Theorems: formatter -/

theorem no_time_tube_list (s : State) (i : Fin 4) :
    (no_time s).tube_list i = { digit := 10, dot := LOW } := by
  fin_cases i <;> rfl

theorem no_time_time_set (s : State) : (no_time s).time_set = s.time_set := rfl

theorem timer_on_alarm_tube_list (s : State) : (timer_on_alarm s).tube_list = s.tube_list := by
  unfold timer_on_alarm
  show (if _ then _ else _ : State).tube_list = _
  split <;> rfl

theorem timer_on_alarm_time_set (s : State) : (timer_on_alarm s).time_set = s.time_set := by
  unfold timer_on_alarm
  show (if _ then _ else _ : State).time_set = _
  split <;> rfl

/-- While `time_set` is false the render state is blank: one event keeps it
so. -/
theorem step_blank_inv (s : State) (e : Event)
    (h : s.time_set = false → ∀ i, s.tube_list i = { digit := 10, dot := LOW }) :
    (step s e).time_set = false → ∀ i, (step s e).tube_list i = { digit := 10, dot := LOW } := by
  cases e with
  | tick =>
    show (timer_on_alarm s).time_set = false → ∀ i, (timer_on_alarm s).tube_list i = _
    rw [timer_on_alarm_time_set, timer_on_alarm_tube_list]
    exact h
  | cycle tmv t =>
    show (display_task_cycle tmv t s).time_set = false →
      ∀ i, (display_task_cycle tmv t s).tube_list i = _
    unfold display_task_cycle
    cases hts : s.time_set with
    | false =>
      intro _ i
      exact no_time_tube_list s i
    | true =>
      intro hf
      simp only [Bool.not_true, Bool.false_eq_true, if_false] at hf
      rw [display_time_time_set, hts] at hf
      exact absurd hf (by decide)
  | time_sync =>
    intro hf
    exact absurd (show true = false from hf) (by decide)

theorem run_blank_inv (evs : List Event) :
    ∀ s : State, (s.time_set = false → ∀ i, s.tube_list i = { digit := 10, dot := LOW }) →
      (run s evs).time_set = false →
      ∀ i, (run s evs).tube_list i = { digit := 10, dot := LOW } := by
  induction evs with
  | nil => intro s h; exact h
  | cons e evs ih =>
    intro s h
    exact ih (step s e) (step_blank_inv s e h)

/-- C6: in every state reached from the initial one by timer alarms, formatter
passes and the SNTP callback in which `time_set` is still false, all four
tubes are {digit = 10, dot = LOW}; so is the initial `tube_list`, and so is
the render state after `no_time` from any state. -/
theorem blank_while_no_time (g : GPIO) (evs : List Event)
    (h : (run (init g) evs).time_set = false) :
    (∀ i, (run (init g) evs).tube_list i = { digit := 10, dot := LOW })
      ∧ (∀ i, (init g).tube_list i = { digit := 10, dot := LOW })
      ∧ ∀ (s : State) (i : Fin 4), (no_time s).tube_list i = { digit := 10, dot := LOW } :=
  ⟨run_blank_inv evs (init g) (fun _ _ => rfl) h, fun _ => rfl, no_time_tube_list⟩

/-- Witness of C6: an alarm, a formatter pass and another alarm after
start-up. -/
theorem blank_while_no_time_witness :
    (run (init ⟨0, 0⟩) [Event.tick, Event.cycle ⟨30, 7, 14, 9, 2⟩ 0, Event.tick]).time_set = false
      ∧ ∀ i, (run (init ⟨0, 0⟩)
          [Event.tick, Event.cycle ⟨30, 7, 14, 9, 2⟩ 0, Event.tick]).tube_list i
            = { digit := 10, dot := LOW } :=
  ⟨rfl, (blank_while_no_time ⟨0, 0⟩
    [Event.tick, Event.cycle ⟨30, 7, 14, 9, 2⟩ 0, Event.tick] rfl).1⟩

/-- The four tubes that `display_time` leaves, in terms of the converted
fields: the date layout when the converted seconds are in 50..54, the
hour/minute layout otherwise. -/
theorem display_time_frame (tmv : Tm) (t : Int) (s : State) :
    frame (display_time tmv t s)
      = if to_uint8 tmv.tm_sec ≥ 50 ∧ to_uint8 tmv.tm_sec ≤ 54 then
          [⟨to_uint8 tmv.tm_mday / 10, blink_dot t⟩, ⟨to_uint8 tmv.tm_mday % 10, blink_dot t⟩,
           ⟨to_uint8 (tmv.tm_mon + 1) / 10, blink_dot t⟩,
           ⟨to_uint8 (tmv.tm_mon + 1) % 10, blink_dot t⟩]
        else
          [⟨to_uint8 tmv.tm_hour / 10, LOW⟩, ⟨to_uint8 tmv.tm_hour % 10, blink_dot t⟩,
           ⟨to_uint8 tmv.tm_min / 10, LOW⟩, ⟨to_uint8 tmv.tm_min % 10, LOW⟩] := by
  simp only [display_time]
  split <;> rfl

theorem to_uint8_of_range (x : Int) (h0 : 0 ≤ x) (h : x < 256) : to_uint8 x = x.toNat := by
  unfold to_uint8
  omega

/-- For seconds in 0..60 the window test on the converted seconds is the
window test on `tm_sec`. -/
theorem window_iff (x : Int) (h0 : 0 ≤ x) (h : x ≤ 60) :
    (to_uint8 x ≥ 50 ∧ to_uint8 x ≤ 54) ↔ (50 ≤ x ∧ x ≤ 54) := by
  rw [to_uint8_of_range x h0 (by omega)]
  omega

/-- C7: for hour in 0..23, minute in 0..59 and seconds in 0..60 outside
50..54, `display_time` leaves the digits [h / 10, h mod 10, m / 10, m mod 10]
on positions 0..3, whatever the previous render state. -/
theorem display_time_hhmm_digits (tmv : Tm) (t : Int) (s : State)
    (hh0 : 0 ≤ tmv.tm_hour) (hh : tmv.tm_hour ≤ 23)
    (hm0 : 0 ≤ tmv.tm_min) (hm : tmv.tm_min ≤ 59)
    (hs0 : 0 ≤ tmv.tm_sec) (hs : tmv.tm_sec ≤ 60)
    (hw : ¬ (50 ≤ tmv.tm_sec ∧ tmv.tm_sec ≤ 54)) :
    (frame (display_time tmv t s)).map TUBE.digit
      = [tmv.tm_hour.toNat / 10, tmv.tm_hour.toNat % 10,
         tmv.tm_min.toNat / 10, tmv.tm_min.toNat % 10] := by
  rw [display_time_frame, if_neg (fun h => hw ((window_iff _ hs0 hs).mp h)),
    to_uint8_of_range _ hh0 (by omega), to_uint8_of_range _ hm0 (by omega)]
  rfl

/-- Witness of C7: 14:07:30 gives the digits [1,4,0,7]. -/
theorem display_time_hhmm_digits_witness :
    ¬ (50 ≤ (30 : Int) ∧ (30 : Int) ≤ 54)
      ∧ (frame (display_time ⟨30, 7, 14, 9, 2⟩ 0 (init ⟨0, 0⟩))).map TUBE.digit = [1, 4, 0, 7] :=
  ⟨by decide,
    display_time_hhmm_digits ⟨30, 7, 14, 9, 2⟩ 0 (init ⟨0, 0⟩)
      (by decide) (by decide) (by decide) (by decide) (by decide) (by decide) (by decide)⟩

/-- C8, as the code has it: in the hour/minute layout (seconds in 0..60
outside 50..54) `display_time` leaves the dot LOW on positions 0, 2 and 3 and
writes the blink value to the dot of position 1. -/
theorem display_time_hhmm_dots (tmv : Tm) (t : Int) (s : State)
    (hs0 : 0 ≤ tmv.tm_sec) (hs : tmv.tm_sec ≤ 60)
    (hw : ¬ (50 ≤ tmv.tm_sec ∧ tmv.tm_sec ≤ 54)) :
    (frame (display_time tmv t s)).map TUBE.dot = [LOW, blink_dot t, LOW, LOW] := by
  rw [display_time_frame, if_neg (fun h => hw ((window_iff _ hs0 hs).mp h))]
  rfl

/-- Witness of C8 as amended: 14:07:30 at clock value 0, where the blink
value is HIGH. -/
theorem display_time_hhmm_dots_witness :
    ¬ (50 ≤ (30 : Int) ∧ (30 : Int) ≤ 54)
      ∧ (frame (display_time ⟨30, 7, 14, 9, 2⟩ 0 (init ⟨0, 0⟩))).map TUBE.dot
          = [LOW, HIGH, LOW, LOW] :=
  ⟨by decide,
    display_time_hhmm_dots ⟨30, 7, 14, 9, 2⟩ 0 (init ⟨0, 0⟩) (by decide) (by decide) (by decide)⟩

/-- C8 as stated fails: at 14:07:30 with clock value 0 the dot of position 1
is HIGH, so not all four dots are LOW. -/
theorem display_time_hhmm_dots_counterexample :
    ((display_time ⟨30, 7, 14, 9, 2⟩ 0 (init ⟨0, 0⟩)).tube_list 1).dot = HIGH
      ∧ ¬ (∀ i, ((display_time ⟨30, 7, 14, 9, 2⟩ 0 (init ⟨0, 0⟩)).tube_list i).dot = LOW) := by
  decide

/-- C9: for seconds in 0..60, day in 1..31, month index in 0..11 (and hour,
minute in range), `display_time` leaves the date layout, digits
[d / 10, d mod 10, (mon+1) / 10, (mon+1) mod 10] with the blink value on all
four dots, exactly when 50 <= tm_sec <= 54, and the hour/minute layout
otherwise. -/
theorem display_time_ddmm (tmv : Tm) (t : Int) (s : State)
    (hs0 : 0 ≤ tmv.tm_sec) (hs : tmv.tm_sec ≤ 60)
    (hd1 : 1 ≤ tmv.tm_mday) (hd : tmv.tm_mday ≤ 31)
    (hmon0 : 0 ≤ tmv.tm_mon) (hmon : tmv.tm_mon ≤ 11)
    (hh0 : 0 ≤ tmv.tm_hour) (hh : tmv.tm_hour ≤ 23)
    (hm0 : 0 ≤ tmv.tm_min) (hm : tmv.tm_min ≤ 59) :
    frame (display_time tmv t s)
      = if 50 ≤ tmv.tm_sec ∧ tmv.tm_sec ≤ 54 then
          [⟨tmv.tm_mday.toNat / 10, blink_dot t⟩, ⟨tmv.tm_mday.toNat % 10, blink_dot t⟩,
           ⟨(tmv.tm_mon + 1).toNat / 10, blink_dot t⟩,
           ⟨(tmv.tm_mon + 1).toNat % 10, blink_dot t⟩]
        else
          [⟨tmv.tm_hour.toNat / 10, LOW⟩, ⟨tmv.tm_hour.toNat % 10, blink_dot t⟩,
           ⟨tmv.tm_min.toNat / 10, LOW⟩, ⟨tmv.tm_min.toNat % 10, LOW⟩] := by
  rw [display_time_frame, to_uint8_of_range _ hh0 (by omega), to_uint8_of_range _ hm0 (by omega),
    to_uint8_of_range tmv.tm_mday (by omega) (by omega),
    to_uint8_of_range (tmv.tm_mon + 1) (by omega) (by omega)]
  by_cases hw : 50 ≤ tmv.tm_sec ∧ tmv.tm_sec ≤ 54
  · rw [if_pos hw, if_pos ((window_iff _ hs0 hs).mpr hw)]
  · rw [if_neg hw, if_neg (fun h => hw ((window_iff _ hs0 hs).mp h))]

/-- Witness of C9: seconds 52, day 9, month 3 (`tm_mon = 2`) at clock value 0
gives the digits [0,9,0,3] with all four dots at the blink value HIGH. -/
theorem display_time_ddmm_witness :
    (50 ≤ (52 : Int) ∧ (52 : Int) ≤ 54)
      ∧ frame (display_time ⟨52, 7, 14, 9, 2⟩ 0 (init ⟨0, 0⟩))
          = [⟨0, HIGH⟩, ⟨9, HIGH⟩, ⟨0, HIGH⟩, ⟨3, HIGH⟩] :=
  ⟨by decide,
    display_time_ddmm ⟨52, 7, 14, 9, 2⟩ 0 (init ⟨0, 0⟩)
      (by decide) (by decide) (by decide) (by decide) (by decide) (by decide)
      (by decide) (by decide) (by decide) (by decide)⟩

/-! ## Theorems: blink value -/

theorem blink_ms_of_nonneg (t : Int) (h0 : 0 ≤ t) :
    (blink_ms t : Int) = (t / 1000) % 1000 := by
  unfold blink_ms to_uint32
  rw [Int.tdiv_eq_ediv h0 (by decide), Int.tmod_eq_emod (by omega) (by decide)]
  omega

theorem blink_dot_high_iff (t : Int) (h0 : 0 ≤ t) :
    blink_dot t = HIGH ↔ (t / 1000) % 1000 < 500 := by
  have h := blink_ms_of_nonneg t h0
  unfold blink_dot
  split
  · constructor
    · intro _; omega
    · intro _; rfl
  · constructor
    · intro hc; exact absurd hc (by decide)
    · intro _; omega

theorem blink_dot_low_iff (t : Int) (h0 : 0 ≤ t) :
    blink_dot t = LOW ↔ ¬ (t / 1000) % 1000 < 500 := by
  have h := blink_ms_of_nonneg t h0
  unfold blink_dot
  split
  · constructor
    · intro hc; exact absurd hc (by decide)
    · intro _; omega
  · constructor
    · intro _; omega
    · intro _; rfl

/-- C10: the blink value is a function of the microsecond clock t alone. For
t >= 0 it is HIGH exactly when ((t / 1000) mod 1000) < 500 and LOW otherwise;
half a second later it is the opposite, a second later it is the same. In
`display_time` it is the dot written to position 1, whatever the local time
and the previous render state. -/
theorem blink_dot_cadence (t : Int) (h0 : 0 ≤ t) :
    (blink_dot t = HIGH ↔ (t / 1000) % 1000 < 500)
      ∧ (blink_dot t = LOW ↔ ¬ (t / 1000) % 1000 < 500)
      ∧ (blink_dot (t + 500000) = HIGH ↔ blink_dot t = LOW)
      ∧ (blink_dot (t + 500000) = LOW ↔ blink_dot t = HIGH)
      ∧ blink_dot (t + 1000000) = blink_dot t
      ∧ ∀ (tmv : Tm) (s : State), ((display_time tmv t s).tube_list 1).dot = blink_dot t := by
  have hH := blink_dot_high_iff t h0
  have hL := blink_dot_low_iff t h0
  have hH5 := blink_dot_high_iff (t + 500000) (by omega)
  have hL5 := blink_dot_low_iff (t + 500000) (by omega)
  refine ⟨hH, hL, ?_, ?_, ?_, ?_⟩
  · rw [hH5, hL]; omega
  · rw [hL5, hH]; omega
  · have h1 := blink_ms_of_nonneg t h0
    have h2 := blink_ms_of_nonneg (t + 1000000) (by omega)
    have e : blink_ms (t + 1000000) = blink_ms t := by omega
    unfold blink_dot
    rw [e]
  · intro tmv s
    simp only [display_time]
    split <;> rfl

/-- Witness of C10 at a quarter of a second. -/
theorem blink_dot_cadence_witness :
    (0 : Int) ≤ 250000
      ∧ blink_dot 250000 = HIGH ∧ blink_dot (250000 + 500000) = LOW
      ∧ blink_dot (250000 + 1000000) = blink_dot 250000 :=
  ⟨by decide, by decide, by decide, (blink_dot_cadence 250000 (by decide)).2.2.2.2.1⟩

/-! ## Theorems: idempotence of the display write -/

theorem tube_list_eq_of_frame (s s' : State) (h : frame s = frame s') :
    s.tube_list = s'.tube_list :=
  List.ofFn_injective h

theorem no_time_frame (s : State) :
    frame (no_time s) = [⟨10, LOW⟩, ⟨10, LOW⟩, ⟨10, LOW⟩, ⟨10, LOW⟩] := rfl

theorem display_time_frame_indep (tmv : Tm) (t : Int) (s s' : State) :
    frame (display_time tmv t s) = frame (display_time tmv t s') := by
  rw [display_time_frame, display_time_frame]

theorem display_task_cycle_time_set (tmv : Tm) (t : Int) (s : State) :
    (display_task_cycle tmv t s).time_set = s.time_set := by
  unfold display_task_cycle
  split
  · rfl
  · exact display_time_time_set tmv t s

/-- C12: performing the display write twice with the same input leaves the
same four (digit, dot) pairs as performing it once, from every prior state:
for `no_time`, for `display_time`, and for one pass of `display_task` (which
chooses between them by `time_set`). -/
theorem display_write_idempotent (tmv : Tm) (t : Int) (s : State) :
    (no_time (no_time s)).tube_list = (no_time s).tube_list
      ∧ (display_time tmv t (display_time tmv t s)).tube_list = (display_time tmv t s).tube_list
      ∧ (display_task_cycle tmv t (display_task_cycle tmv t s)).tube_list
          = (display_task_cycle tmv t s).tube_list
      ∧ frame (display_task_cycle tmv t (display_task_cycle tmv t s))
          = frame (display_task_cycle tmv t s) := by
  have h1 : (no_time (no_time s)).tube_list = (no_time s).tube_list :=
    tube_list_eq_of_frame _ _ (by rw [no_time_frame, no_time_frame])
  have h2 : (display_time tmv t (display_time tmv t s)).tube_list
      = (display_time tmv t s).tube_list :=
    tube_list_eq_of_frame _ _ (display_time_frame_indep tmv t _ s)
  have h3 : (display_task_cycle tmv t (display_task_cycle tmv t s)).tube_list
      = (display_task_cycle tmv t s).tube_list := by
    have hts := display_task_cycle_time_set tmv t s
    cases hs : s.time_set with
    | false =>
      have e : display_task_cycle tmv t s = no_time s := by
        unfold display_task_cycle; simp [hs]
      have e' : display_task_cycle tmv t (no_time s) = no_time (no_time s) := by
        unfold display_task_cycle; simp [no_time_time_set, hs]
      rw [e, e']
      exact h1
    | true =>
      have e : display_task_cycle tmv t s = display_time tmv t s := by
        unfold display_task_cycle; simp [hs]
      have e' : display_task_cycle tmv t (display_time tmv t s)
          = display_time tmv t (display_time tmv t s) := by
        unfold display_task_cycle; simp [display_time_time_set, hs]
      rw [e, e']
      exact h2
  refine ⟨h1, h2, h3, ?_⟩
  unfold frame
  rw [h3]

/-! ## Theorems: digit range -/

theorem tube_list_of_frame (s : State) (a b c d : TUBE) (h : frame s = [a, b, c, d]) :
    s.tube_list 0 = a ∧ s.tube_list 1 = b ∧ s.tube_list 2 = c ∧ s.tube_list 3 = d := by
  have h' : [s.tube_list 0, s.tube_list 1, s.tube_list 2, s.tube_list 3] = [a, b, c, d] := h
  simpa using h'

theorem forall_fin4 (P : Fin 4 → Prop) (h0 : P 0) (h1 : P 1) (h2 : P 2) (h3 : P 3) :
    ∀ i, P i := by
  intro i
  fin_cases i
  · exact h0
  · exact h1
  · exact h2
  · exact h3

/-- The digits that `display_time` leaves for a broken-down time in range. -/
theorem display_time_digits_le (tmv : Tm) (t : Int) (s : State) (hv : valid_tm tmv) :
    (∀ i, ((display_time tmv t s).tube_list i).digit ≤ 9)
      ∧ ((50 ≤ tmv.tm_sec ∧ tmv.tm_sec ≤ 54) →
          ((display_time tmv t s).tube_list 0).digit ≤ 3
            ∧ ((display_time tmv t s).tube_list 2).digit ≤ 1)
      ∧ (¬ (50 ≤ tmv.tm_sec ∧ tmv.tm_sec ≤ 54) →
          ((display_time tmv t s).tube_list 0).digit ≤ 2
            ∧ ((display_time tmv t s).tube_list 2).digit ≤ 5) := by
  obtain ⟨⟨hs0, hs⟩, ⟨hm0, hm⟩, ⟨hh0, hh⟩, ⟨hd1, hd⟩, ⟨hmon0, hmon⟩⟩ := hv
  have hM := to_uint8_of_range tmv.tm_min hm0 (by omega)
  have hH := to_uint8_of_range tmv.tm_hour hh0 (by omega)
  have hD := to_uint8_of_range tmv.tm_mday (by omega) (by omega)
  have hMo := to_uint8_of_range (tmv.tm_mon + 1) (by omega) (by omega)
  have hf := display_time_frame tmv t s
  by_cases hw : 50 ≤ tmv.tm_sec ∧ tmv.tm_sec ≤ 54
  · rw [if_pos ((window_iff _ hs0 hs).mpr hw)] at hf
    obtain ⟨e0, e1, e2, e3⟩ := tube_list_of_frame _ _ _ _ _ hf
    refine ⟨forall_fin4 _ ?_ ?_ ?_ ?_, fun _ => ⟨?_, ?_⟩, fun h => absurd hw h⟩
    all_goals first
      | (rw [e0]; show to_uint8 _ / 10 ≤ _; omega)
      | (rw [e1]; show to_uint8 _ % 10 ≤ _; omega)
      | (rw [e2]; show to_uint8 _ / 10 ≤ _; omega)
      | (rw [e3]; show to_uint8 _ % 10 ≤ _; omega)
  · rw [if_neg (fun h => hw ((window_iff _ hs0 hs).mp h))] at hf
    obtain ⟨e0, e1, e2, e3⟩ := tube_list_of_frame _ _ _ _ _ hf
    refine ⟨forall_fin4 _ ?_ ?_ ?_ ?_, fun h => absurd h hw, fun _ => ⟨?_, ?_⟩⟩
    all_goals first
      | (rw [e0]; show to_uint8 _ / 10 ≤ _; omega)
      | (rw [e1]; show to_uint8 _ % 10 ≤ _; omega)
      | (rw [e2]; show to_uint8 _ / 10 ≤ _; omega)
      | (rw [e3]; show to_uint8 _ % 10 ≤ _; omega)

theorem step_digit_le (s : State) (e : Event) (hv : valid_event e)
    (h : ∀ i, (s.tube_list i).digit ≤ 10) :
    ∀ i, ((step s e).tube_list i).digit ≤ 10 := by
  cases e with
  | tick =>
    show ∀ i, ((timer_on_alarm s).tube_list i).digit ≤ 10
    rw [timer_on_alarm_tube_list]
    exact h
  | cycle tmv t =>
    show ∀ i, ((display_task_cycle tmv t s).tube_list i).digit ≤ 10
    unfold display_task_cycle
    split
    · intro i
      rw [no_time_tube_list]
    · intro i
      exact Nat.le_succ_of_le ((display_time_digits_le tmv t s hv).1 i)
  | time_sync => exact h

theorem run_digit_le (evs : List Event) :
    ∀ s : State, (∀ e ∈ evs, valid_event e) → (∀ i, (s.tube_list i).digit ≤ 10) →
      ∀ i, ((run s evs).tube_list i).digit ≤ 10 := by
  induction evs with
  | nil => intro s _ h; exact h
  | cons e evs ih =>
    intro s hv h
    exact ih (step s e) (fun x hx => hv x (List.mem_cons_of_mem _ hx))
      (step_digit_le s e (hv e (List.mem_cons_self _ _)) h)

/-- C15: for a broken-down time in range every digit that `display_time`
stores is in 0..9, the tens digits at most 3 (day) and 1 (month) in the date
layout and at most 2 (hour) and 5 (minute) in the hour/minute layout. Hence in
every state reached from the initial one by timer alarms, the SNTP callback
and formatter passes that read times in range, all four digits are at most 10
and the clamp of `isr_tubes` leaves the fetched digit as it is. -/
theorem digit_range_invariant (g : GPIO) (evs : List Event) (tmv : Tm) (t : Int) (s : State)
    (hev : ∀ e ∈ evs, valid_event e) (hv : valid_tm tmv) :
    (∀ i, ((display_time tmv t s).tube_list i).digit ≤ 9)
      ∧ ((50 ≤ tmv.tm_sec ∧ tmv.tm_sec ≤ 54) →
          ((display_time tmv t s).tube_list 0).digit ≤ 3
            ∧ ((display_time tmv t s).tube_list 2).digit ≤ 1)
      ∧ (¬ (50 ≤ tmv.tm_sec ∧ tmv.tm_sec ≤ 54) →
          ((display_time tmv t s).tube_list 0).digit ≤ 2
            ∧ ((display_time tmv t s).tube_list 2).digit ≤ 5)
      ∧ (∀ i, ((run (init g) evs).tube_list i).digit ≤ 10)
      ∧ (∀ i, ¬ ((run (init g) evs).tube_list i).digit > 10)
      ∧ ∀ i, clamp_digit ((run (init g) evs).tube_list i).digit
          = ((run (init g) evs).tube_list i).digit := by
  have hd := display_time_digits_le tmv t s hv
  have hr := run_digit_le evs (init g) hev (fun _ => Nat.le_refl 10)
  refine ⟨hd.1, hd.2.1, hd.2.2, hr, fun i => Nat.not_lt.mpr (hr i), ?_⟩
  intro i
  unfold clamp_digit
  rw [if_neg (Nat.not_lt.mpr (hr i))]

/-- Witness of C15: start-up, the SNTP callback, then formatter passes at
23:59:49 and at 23:59:52 on the 31st of December with alarms in between. -/
theorem digit_range_invariant_witness :
    valid_tm ⟨52, 59, 23, 31, 11⟩
      ∧ (∀ i, ((display_time ⟨52, 59, 23, 31, 11⟩ 0 (init ⟨0, 0⟩)).tube_list i).digit ≤ 9)
      ∧ ∀ i, ((run (init ⟨0, 0⟩)
          [Event.tick, Event.time_sync, Event.cycle ⟨49, 59, 23, 31, 11⟩ 0, Event.tick,
           Event.cycle ⟨52, 59, 23, 31, 11⟩ 0, Event.tick]).tube_list i).digit ≤ 10 := by
  have hv : valid_tm ⟨52, 59, 23, 31, 11⟩ := by unfold valid_tm; decide
  have hv' : valid_tm ⟨49, 59, 23, 31, 11⟩ := by unfold valid_tm; decide
  have h := digit_range_invariant ⟨0, 0⟩
    [Event.tick, Event.time_sync, Event.cycle ⟨49, 59, 23, 31, 11⟩ 0, Event.tick,
     Event.cycle ⟨52, 59, 23, 31, 11⟩ 0, Event.tick] ⟨52, 59, 23, 31, 11⟩ 0 (init ⟨0, 0⟩)
    (by
      intro e he
      simp only [List.mem_cons, List.mem_singleton, List.not_mem_nil, or_false] at he
      rcases he with h | h | h | h | h | h <;> subst h
      · trivial
      · trivial
      · exact hv'
      · trivial
      · exact hv
      · trivial)
    hv
  exact ⟨hv, h.1, h.2.2.2.1⟩

/-! ## Theorems: the writes of one `isr_tubes` invocation -/

/-- The level of a line after a sequence of writes is the level of the last
write that names it. -/
theorem line_gpio_writes (q : Nat) (hq : q < 64) (ws : List (Nat × Nat)) :
    ∀ g : GPIO, line (gpio_writes g ws) q = line_after ws q (line g q) := by
  induction ws with
  | nil => intro g; rfl
  | cons w ws ih =>
    intro g
    show line (gpio_writes (gpio_set_level_isr g w.1 w.2) ws) q
      = line_after ws q (if w.1 = q then decide (w.2 ≠ 0) else line g q)
    rw [ih]
    by_cases h : w.1 = q
    · rw [if_pos h, ← h, line_set_same g w.1 w.2 (by omega)]
    · rw [if_neg h, line_set_other g w.1 w.2 q h hq]

/-- The 21 writes of `isr_tubes`, in program order. -/
theorem isr_tubes_writes_eq (s : State) :
    isr_tubes_writes s
      = [(PIN_GRID0, 0), (PIN_GRID1, 0), (PIN_GRID2, 0), (PIN_GRID3, 0),
         (PIN_SEG_A, 0), (PIN_SEG_B, 0), (PIN_SEG_C, 0), (PIN_SEG_D, 0),
         (PIN_SEG_E, 0), (PIN_SEG_F, 0), (PIN_SEG_G, 0), (PIN_DOT, 0),
         (PIN_SEG_A, select_seg (s.tube_list (next_tube s.cur_tube)).digit 0),
         (PIN_SEG_B, select_seg (s.tube_list (next_tube s.cur_tube)).digit 1),
         (PIN_SEG_C, select_seg (s.tube_list (next_tube s.cur_tube)).digit 2),
         (PIN_SEG_D, select_seg (s.tube_list (next_tube s.cur_tube)).digit 3),
         (PIN_SEG_E, select_seg (s.tube_list (next_tube s.cur_tube)).digit 4),
         (PIN_SEG_F, select_seg (s.tube_list (next_tube s.cur_tube)).digit 5),
         (PIN_SEG_G, select_seg (s.tube_list (next_tube s.cur_tube)).digit 6),
         (PIN_DOT, (s.tube_list (next_tube s.cur_tube)).dot),
         (grid_pins (next_tube s.cur_tube), 1)] := rfl

theorem grid_pins_cases (c : Fin 4) :
    (c = 0 ∧ grid_pins c = PIN_GRID0) ∨ (c = 1 ∧ grid_pins c = PIN_GRID1)
      ∨ (c = 2 ∧ grid_pins c = PIN_GRID2) ∨ (c = 3 ∧ grid_pins c = PIN_GRID3) := by
  fin_cases c <;> simp [grid_pins]

theorem grid_pins_lt (j : Fin 4) : grid_pins j < 64 := by
  fin_cases j <;> decide

theorem seg_pins_lt (i : Fin 7) : seg_pins i < 64 := by
  fin_cases i <;> decide

/-- The level of grid line `j` after the first `n` writes of `isr_tubes`:
untouched while its blanking write is still to come, inactive from then on up
to the twentieth write, and active after the last write exactly for the new
cursor. -/
theorem grid_line_after_take (s : State) (g : GPIO) (n : Nat) (j : Fin 4) :
    line (gpio_writes g ((isr_tubes_writes s).take n)) (grid_pins j)
      = if n ≤ j.val then line g (grid_pins j)
        else if n ≤ 20 then false
        else decide (j = next_tube s.cur_tube) := by
  rw [line_gpio_writes _ (grid_pins_lt j), isr_tubes_writes_eq]
  by_cases hn : n ≤ 20
  · interval_cases n <;> fin_cases j <;>
      simp [line_after, grid_pins, PIN_GRID0, PIN_GRID1, PIN_GRID2, PIN_GRID3, PIN_SEG_A,
        PIN_SEG_B, PIN_SEG_C, PIN_SEG_D, PIN_SEG_E, PIN_SEG_F, PIN_SEG_G, PIN_DOT]
  · rw [List.take_of_length_le (by simp; omega)]
    have hj : ¬ n ≤ j.val := by omega
    rw [if_neg hj, if_neg hn]
    rcases grid_pins_cases (next_tube s.cur_tube) with ⟨hc, hp⟩ | ⟨hc, hp⟩ | ⟨hc, hp⟩ | ⟨hc, hp⟩ <;>
      rw [hc] <;> fin_cases j <;>
      simp [line_after, grid_pins, PIN_GRID0, PIN_GRID1, PIN_GRID2, PIN_GRID3, PIN_SEG_A,
        PIN_SEG_B, PIN_SEG_C, PIN_SEG_D, PIN_SEG_E, PIN_SEG_F, PIN_SEG_G, PIN_DOT]

theorem count_true_four (b0 b1 b2 b3 : Bool) :
    [b0, b1, b2, b3].count true = b0.toNat + b1.toNat + b2.toNat + b3.toNat := by
  cases b0 <;> cases b1 <;> cases b2 <;> cases b3 <;> rfl

theorem grids_active_eq (g : GPIO) :
    grids_active g
      = (line g (grid_pins 0)).toNat + (line g (grid_pins 1)).toNat
        + (line g (grid_pins 2)).toNat + (line g (grid_pins 3)).toNat :=
  count_true_four _ _ _ _

/-- The number of active grid lines after the first `n` writes of
`isr_tubes`: none from the fourth to the twentieth write, one after the
last, and before the fourth write no more than before the invocation. -/
theorem grids_active_after_take (s : State) (g : GPIO) (n : Nat) :
    (n ≤ 3 → grids_active (gpio_writes g ((isr_tubes_writes s).take n)) ≤ grids_active g)
      ∧ (4 ≤ n → n ≤ 20 → grids_active (gpio_writes g ((isr_tubes_writes s).take n)) = 0)
      ∧ (21 ≤ n → grids_active (gpio_writes g ((isr_tubes_writes s).take n)) = 1) := by
  rw [grids_active_eq, grids_active_eq, grid_line_after_take, grid_line_after_take,
    grid_line_after_take, grid_line_after_take]
  refine ⟨?_, ?_, ?_⟩
  · intro hn
    generalize line g (grid_pins 0) = b0
    generalize line g (grid_pins 1) = b1
    generalize line g (grid_pins 2) = b2
    generalize line g (grid_pins 3) = b3
    have v0 : ((0 : Fin 4) : Nat) = 0 := rfl
    have v1 : ((1 : Fin 4) : Nat) = 1 := rfl
    have v2 : ((2 : Fin 4) : Nat) = 2 := rfl
    have v3 : ((3 : Fin 4) : Nat) = 3 := rfl
    rw [v0, v1, v2, v3]
    interval_cases n <;> cases b0 <;> cases b1 <;> cases b2 <;> cases b3 <;> simp
  · intro h4 h20
    have e0 : ¬ n ≤ ((0 : Fin 4) : Nat) := by show ¬ n ≤ 0; omega
    have e1 : ¬ n ≤ ((1 : Fin 4) : Nat) := by show ¬ n ≤ 1; omega
    have e2 : ¬ n ≤ ((2 : Fin 4) : Nat) := by show ¬ n ≤ 2; omega
    have e3 : ¬ n ≤ ((3 : Fin 4) : Nat) := by show ¬ n ≤ 3; omega
    simp only [if_neg e0, if_neg e1, if_neg e2, if_neg e3, if_pos h20]
    rfl
  · intro h21
    have e0 : ¬ n ≤ ((0 : Fin 4) : Nat) := by show ¬ n ≤ 0; omega
    have e1 : ¬ n ≤ ((1 : Fin 4) : Nat) := by show ¬ n ≤ 1; omega
    have e2 : ¬ n ≤ ((2 : Fin 4) : Nat) := by show ¬ n ≤ 2; omega
    have e3 : ¬ n ≤ ((3 : Fin 4) : Nat) := by show ¬ n ≤ 3; omega
    have h20 : ¬ n ≤ 20 := by omega
    simp only [if_neg e0, if_neg e1, if_neg e2, if_neg e3, if_neg h20]
    have hc : ∀ c : Fin 4,
        (decide ((0 : Fin 4) = c)).toNat + (decide ((1 : Fin 4) = c)).toNat
          + (decide ((2 : Fin 4) = c)).toNat + (decide ((3 : Fin 4) = c)).toNat = 1 := by
      decide
    exact hc _

/-- C13, as the code has it: the first twelve of the 21 writes of one
`isr_tubes` invocation drive the four grids, then the seven segments, then the
dot to 0; from the fourth write to the twentieth all four grid lines are
inactive, whatever the output state before, so the eight segment and dot
writes of the new pattern happen with all grids off; no write before the last
drives a grid line active, and the last write drives the grid of the new
cursor active. So from the fourth write on at most one grid line is active;
during the first three writes as many grid lines can be active as were before
the invocation, and at most one is when at most one was. -/
theorem isr_tubes_ghost_free (s : State) (g : GPIO) :
    (isr_tubes_writes s).length = 21
      ∧ (isr_tubes_writes s).take 12
          = [(PIN_GRID0, 0), (PIN_GRID1, 0), (PIN_GRID2, 0), (PIN_GRID3, 0),
             (PIN_SEG_A, 0), (PIN_SEG_B, 0), (PIN_SEG_C, 0), (PIN_SEG_D, 0),
             (PIN_SEG_E, 0), (PIN_SEG_F, 0), (PIN_SEG_G, 0), (PIN_DOT, 0)]
      ∧ (((isr_tubes_writes s).drop 12).take 8).map Prod.fst
          = [PIN_SEG_A, PIN_SEG_B, PIN_SEG_C, PIN_SEG_D, PIN_SEG_E, PIN_SEG_F, PIN_SEG_G,
             PIN_DOT]
      ∧ (∀ n, 4 ≤ n → n ≤ 20 → ∀ j : Fin 4,
          line (gpio_writes g ((isr_tubes_writes s).take n)) (grid_pins j) = false)
      ∧ (∀ w ∈ (isr_tubes_writes s).take 20, ∀ j : Fin 4, w.1 = grid_pins j → w.2 = 0)
      ∧ (isr_tubes_writes s).drop 20 = [(grid_pins (next_tube s.cur_tube), 1)]
      ∧ (∀ n, 4 ≤ n → grids_active (gpio_writes g ((isr_tubes_writes s).take n)) ≤ 1)
      ∧ (grids_active g ≤ 1 →
          ∀ n, grids_active (gpio_writes g ((isr_tubes_writes s).take n)) ≤ 1) := by
  have hA : ∀ n, 4 ≤ n → grids_active (gpio_writes g ((isr_tubes_writes s).take n)) ≤ 1 := by
    intro n h4
    obtain ⟨_, h2, h3⟩ := grids_active_after_take s g n
    by_cases h20 : n ≤ 20
    · rw [h2 h4 h20]; exact Nat.zero_le 1
    · rw [h3 (by omega)]
  refine ⟨rfl, rfl, rfl, ?_, ?_, rfl, hA, ?_⟩
  · intro n h4 h20 j
    rw [grid_line_after_take, if_neg (by omega), if_pos h20]
  · intro w hw j hj
    have hpins : ∀ p ∈ [PIN_SEG_A, PIN_SEG_B, PIN_SEG_C, PIN_SEG_D, PIN_SEG_E, PIN_SEG_F,
        PIN_SEG_G, PIN_DOT], ∀ j : Fin 4, p ≠ grid_pins j := by decide
    rw [isr_tubes_writes_eq] at hw
    simp only [List.take, List.mem_cons, List.mem_singleton, List.not_mem_nil, or_false] at hw
    rcases hw with h | h | h | h | h | h | h | h | h | h | h | h | h | h | h | h | h | h | h | h
    all_goals first
      | (rw [h]; done)
      | (exfalso; rw [h] at hj; exact hpins _ (by simp) j hj)
  · intro h1 n
    by_cases h4 : 4 ≤ n
    · exact hA n h4
    · exact Nat.le_trans ((grids_active_after_take s g n).1 (by omega)) h1

/-- Witness of C13 as amended: the first invocation after start-up with all
output lines low. -/
theorem isr_tubes_ghost_free_witness :
    grids_active ⟨0, 0⟩ ≤ 1
      ∧ ∀ n, grids_active (gpio_writes ⟨0, 0⟩ ((isr_tubes_writes (init ⟨0, 0⟩)).take n)) ≤ 1 :=
  ⟨by decide, (isr_tubes_ghost_free (init ⟨0, 0⟩) ⟨0, 0⟩).2.2.2.2.2.2.2 (by decide)⟩

/-- C13 as stated fails for an arbitrary output state before the invocation:
with all four grid lines active before (bits 1, 2, 6 and 7 of the low bank),
three grid lines are still active after the first write. -/
theorem isr_tubes_ghost_free_counterexample :
    grids_active ⟨198, 0⟩ = 4
      ∧ grids_active (gpio_writes ⟨198, 0⟩ ((isr_tubes_writes (init ⟨198, 0⟩)).take 1)) = 3
      ∧ ¬ (∀ n, grids_active
            (gpio_writes ⟨198, 0⟩ ((isr_tubes_writes (init ⟨198, 0⟩)).take n)) ≤ 1) := by
  refine ⟨by decide, by decide, ?_⟩
  intro h
  exact absurd (h 1) (by decide)

/-! ## Theorems: drive postcondition -/

theorem seg_pins_cases (i : Fin 7) :
    (i = 0 ∧ seg_pins i = PIN_SEG_A) ∨ (i = 1 ∧ seg_pins i = PIN_SEG_B)
      ∨ (i = 2 ∧ seg_pins i = PIN_SEG_C) ∨ (i = 3 ∧ seg_pins i = PIN_SEG_D)
      ∨ (i = 4 ∧ seg_pins i = PIN_SEG_E) ∨ (i = 5 ∧ seg_pins i = PIN_SEG_F)
      ∨ (i = 6 ∧ seg_pins i = PIN_SEG_G) := by
  fin_cases i <;> decide

theorem seg_line_after_isr_tubes (s : State) (i : Fin 7) :
    line (isr_tubes s).gpio (seg_pins i)
      = decide (select_seg (s.tube_list (next_tube s.cur_tube)).digit i ≠ 0) := by
  show line (gpio_writes s.gpio (isr_tubes_writes s)) (seg_pins i) = _
  rw [line_gpio_writes _ (seg_pins_lt i), isr_tubes_writes_eq]
  rcases grid_pins_cases (next_tube s.cur_tube) with ⟨hc, _⟩ | ⟨hc, _⟩ | ⟨hc, _⟩ | ⟨hc, _⟩ <;>
    rw [hc] <;>
    rcases seg_pins_cases i with
      ⟨hi, hp⟩ | ⟨hi, hp⟩ | ⟨hi, hp⟩ | ⟨hi, hp⟩ | ⟨hi, hp⟩ | ⟨hi, hp⟩ | ⟨hi, hp⟩ <;>
    rw [hp, hi] <;>
    simp [line_after, grid_pins, PIN_GRID0, PIN_GRID1, PIN_GRID2, PIN_GRID3, PIN_SEG_A,
      PIN_SEG_B, PIN_SEG_C, PIN_SEG_D, PIN_SEG_E, PIN_SEG_F, PIN_SEG_G, PIN_DOT]

theorem dot_line_after_isr_tubes (s : State) :
    line (isr_tubes s).gpio PIN_DOT
      = decide ((s.tube_list (next_tube s.cur_tube)).dot ≠ 0) := by
  show line (gpio_writes s.gpio (isr_tubes_writes s)) PIN_DOT = _
  rw [line_gpio_writes _ (by decide), isr_tubes_writes_eq]
  rcases grid_pins_cases (next_tube s.cur_tube) with ⟨hc, _⟩ | ⟨hc, _⟩ | ⟨hc, _⟩ | ⟨hc, _⟩ <;>
    rw [hc] <;>
    simp [line_after, grid_pins, PIN_GRID0, PIN_GRID1, PIN_GRID2, PIN_GRID3, PIN_SEG_A,
      PIN_SEG_B, PIN_SEG_C, PIN_SEG_D, PIN_SEG_E, PIN_SEG_F, PIN_SEG_G, PIN_DOT]

theorem grid_line_after_isr_tubes (s : State) (j : Fin 4) :
    line (isr_tubes s).gpio (grid_pins j) = decide (j = next_tube s.cur_tube) := by
  have h := grid_line_after_take s s.gpio 21 j
  rw [List.take_of_length_le (Nat.le_refl 21), if_neg (by omega), if_neg (by decide)] at h
  exact h

/-- C14: after `isr_tubes`, with c' = (c + 1) mod 4 the new cursor, the seven
segment lines carry the table row of the clamped digit of tube c', the dot
line is on exactly when the dot flag of tube c' is non-zero, grid line c' is
active and the other three grid lines are inactive, from every output state,
cursor and render state; the thirteen pin numbers are pairwise distinct. -/
theorem isr_tubes_drive (s : State) :
    (isr_tubes s).cur_tube = (s.cur_tube + 1) % 4
      ∧ (next_tube s.cur_tube).val = (s.cur_tube + 1) % 4
      ∧ (∀ i : Fin 7, line (isr_tubes s).gpio (seg_pins i)
          = decide (digit_seg_data
              (seg_index (s.tube_list (next_tube s.cur_tube)).digit) i ≠ 0))
      ∧ line (isr_tubes s).gpio PIN_DOT
          = decide ((s.tube_list (next_tube s.cur_tube)).dot ≠ 0)
      ∧ line (isr_tubes s).gpio (grid_pins (next_tube s.cur_tube)) = true
      ∧ (∀ j : Fin 4, j ≠ next_tube s.cur_tube → line (isr_tubes s).gpio (grid_pins j) = false)
      ∧ grids_active (isr_tubes s).gpio = 1
      ∧ (List.ofFn grid_pins ++ List.ofFn seg_pins ++ [PIN_DOT, PIN_LEDS]).Nodup := by
  refine ⟨isr_tubes_cur_tube s, next_tube_val s.cur_tube, seg_line_after_isr_tubes s,
    dot_line_after_isr_tubes s, ?_, ?_, ?_, by decide⟩
  · rw [grid_line_after_isr_tubes]
    exact decide_eq_true rfl
  · intro j hj
    rw [grid_line_after_isr_tubes]
    exact decide_eq_false hj
  · have h := (grids_active_after_take s s.gpio 21).2.2 (Nat.le_refl 21)
    rw [List.take_of_length_le (Nat.le_refl 21)] at h
    exact h

/-! ## Theorems: the tubes lit by successive alarms -/

theorem isr_leds_grid_line (s : State) (j : Fin 4) :
    line (isr_leds s).gpio (grid_pins j) = line s.gpio (grid_pins j) := by
  have hne : ∀ j : Fin 4, PIN_LEDS ≠ grid_pins j := by decide
  show line (if s.led_pwm_step = s.led_pwm_off then gpio_set_level_isr s.gpio PIN_LEDS 0
      else if s.led_pwm_step = 0 then gpio_set_level_isr s.gpio PIN_LEDS 1
      else s.gpio) (grid_pins j) = _
  split
  · exact line_set_other _ _ _ _ (hne j) (grid_pins_lt j)
  · split
    · exact line_set_other _ _ _ _ (hne j) (grid_pins_lt j)
    · rfl

/-- The grid lines after one alarm: an alarm that runs `isr_tubes` leaves
exactly the grid of the new cursor active, an alarm that does not leaves the
grid lines as they were. -/
theorem timer_on_alarm_grid_line (s : State) (j : Fin 4) :
    line (timer_on_alarm s).gpio (grid_pins j)
      = if (timer_on_alarm s).tube_toggle ≠ 0
        then decide (j.val = (timer_on_alarm s).cur_tube)
        else line s.gpio (grid_pins j) := by
  rw [timer_on_alarm_tube_toggle, timer_on_alarm_cur_tube]
  unfold timer_on_alarm
  rw [isr_leds_grid_line]
  by_cases ht : (s.tube_toggle ^^^ 1) % 256 ≠ 0
  · simp only [if_pos ht]
    rw [grid_line_after_isr_tubes]
    show decide (j = next_tube s.cur_tube) = decide (j.val = (s.cur_tube + 1) % 4)
    rw [← next_tube_val s.cur_tube]
    exact decide_eq_decide.mpr Fin.ext_iff
  · simp only [if_neg ht]

/-- C3, as the code has it: `timer_on_alarm` runs `isr_tubes` on every second
alarm only. From every reachable state, eight consecutive alarms light the
four tubes once each, in rotating order starting after the current cursor, on
alternate alarms; the cursor takes each value of {0,1,2,3} on exactly two of
the eight alarms. On the output lines: each of the following alarms that runs
`isr_tubes` leaves exactly the grid line of the new cursor active, and each
alarm that does not leaves the grid lines as they were. -/
theorem cursor_eight_ticks (g : GPIO) (evs : List Event) :
    lit_trace 8 (run (init g) evs)
        = (if (run (init g) evs).tube_toggle = 0 then
            [some (((run (init g) evs).cur_tube + 1) % 4), none,
             some (((run (init g) evs).cur_tube + 2) % 4), none,
             some (((run (init g) evs).cur_tube + 3) % 4), none,
             some (((run (init g) evs).cur_tube + 4) % 4), none]
          else
            [none, some (((run (init g) evs).cur_tube + 1) % 4),
             none, some (((run (init g) evs).cur_tube + 2) % 4),
             none, some (((run (init g) evs).cur_tube + 3) % 4),
             none, some (((run (init g) evs).cur_tube + 4) % 4)])
      ∧ (∀ j : Fin 4, (cursor_trace 8 (run (init g) evs)).count j.val = 2)
      ∧ ∀ (n : Nat) (j : Fin 4),
          line (timer_on_alarm (timer_on_alarm^[n] (run (init g) evs))).gpio (grid_pins j)
            = if (timer_on_alarm (timer_on_alarm^[n] (run (init g) evs))).tube_toggle ≠ 0
              then decide (j.val
                = (timer_on_alarm (timer_on_alarm^[n] (run (init g) evs))).cur_tube)
              else line (timer_on_alarm^[n] (run (init g) evs)).gpio (grid_pins j) := by
  refine ⟨?_, ?_, fun n j => timer_on_alarm_grid_line _ j⟩
  all_goals
    obtain ⟨ht, hc⟩ := run_cursor_inv evs (init g) (Nat.zero_le 1) (Nat.lt_succ_self 3)
    generalize run (init g) evs = s at ht hc ⊢
    obtain ⟨h1, h2⟩ := cursor_trace_congr 8 s
      { init ⟨0, 0⟩ with tube_toggle := s.tube_toggle, cur_tube := s.cur_tube } rfl rfl
  · rw [h2]
    exact (cursor_eight_ticks_probe s.tube_toggle (by omega) s.cur_tube hc).1
  · rw [h1]
    exact (cursor_eight_ticks_probe s.tube_toggle (by omega) s.cur_tube hc).2

/-! ## Theorems: URL decoding -/

theorem isxdigit_lt (x : Nat) (h : isxdigit x = true) : 48 ≤ x ∧ x < 103 := by
  unfold isxdigit at h
  simp only [Bool.or_eq_true, Bool.and_eq_true, decide_eq_true_eq] at h
  omega

theorem hex_nibble_table :
    ∀ x, x < 103 → isxdigit x = true → hex_nibble x = hexval x ∧ hex_nibble x ≤ 15 := by
  decide

theorem hex_byte (x y : Nat) (hx : isxdigit x = true) (hy : isxdigit y = true) :
    (16 * hex_nibble x + hex_nibble y) % 256 = 16 * hexval x + hexval y := by
  obtain ⟨ex, bx⟩ := hex_nibble_table x (isxdigit_lt x hx).2 hx
  obtain ⟨ey, bY⟩ := hex_nibble_table y (isxdigit_lt y hy).2 hy
  rw [← ex, ← ey]
  omega

theorem url_decode_nil : url_decode [] = [] := by
  rw [url_decode]

theorem url_decode_escape (x y : Nat) (rest : List Nat)
    (hx : isxdigit x = true) (hy : isxdigit y = true) :
    url_decode (37 :: x :: y :: rest) = (16 * hexval x + hexval y) :: url_decode rest := by
  have hx0 : x ≠ 0 := by have := isxdigit_lt x hx; omega
  have hy0 : y ≠ 0 := by have := isxdigit_lt y hy; omega
  rw [url_decode]
  simp [hx, hy, hx0, hy0, hex_byte x y hx hy]

theorem url_decode_plus (rest : List Nat) : url_decode (43 :: rest) = 32 :: url_decode rest := by
  rw [url_decode]
  simp

theorem url_decode_copy (c : Nat) (rest : List Nat) (hc0 : c ≠ 0) (h43 : c ≠ 43)
    (hne : ¬ (c = 37 ∧ isxdigit (rest.headD 0) = true ∧ isxdigit (rest.tail.headD 0) = true)) :
    url_decode (c :: rest) = c :: url_decode rest := by
  rw [url_decode]
  have hcond : ¬ (c = 37 ∧ rest.headD 0 ≠ 0 ∧ rest.tail.headD 0 ≠ 0
      ∧ isxdigit (rest.headD 0) = true ∧ isxdigit (rest.tail.headD 0) = true) :=
    fun h => hne ⟨h.1, h.2.2.2.1, h.2.2.2.2⟩
  simp only [hc0, h43, hcond, if_false]

theorem url_decode_zero (rest : List Nat) : url_decode (0 :: rest) = [] := by
  rw [url_decode]
  simp

/-- The decoded string is never longer than the source. -/
theorem url_decode_length_le (src : List Nat) : (url_decode src).length ≤ src.length := by
  induction src using url_decode.induct with
  | case1 => rw [url_decode_nil]
  | case2 rest => rw [url_decode_zero]; exact Nat.zero_le _
  | case3 c rest hc a b hcond ih =>
    rw [url_decode]
    simp only [hc, if_false]
    have hcond' : c = 37 ∧ rest.headD 0 ≠ 0 ∧ rest.tail.headD 0 ≠ 0
        ∧ isxdigit (rest.headD 0) = true ∧ isxdigit (rest.tail.headD 0) = true := hcond
    rw [if_pos hcond']
    have hd : (rest.drop 2).length ≤ rest.length := by simp
    simp only [List.length_cons]
    omega
  | case4 rest a b _ hcond ih =>
    rw [url_decode_plus]
    simp only [List.length_cons]
    omega
  | case5 c rest hc a b hcond h43 ih =>
    rw [url_decode_copy c rest hc h43 (fun h => hcond ⟨h.1, by
      have := isxdigit_lt _ h.2.1; omega, by have := isxdigit_lt _ h.2.2; omega, h.2.1, h.2.2⟩)]
    simp only [List.length_cons]
    omega

theorem headD_of_isxdigit (rest : List Nat) (h : isxdigit (rest.headD 0) = true) :
    ∃ x tl, rest = x :: tl ∧ isxdigit x = true := by
  cases rest with
  | nil => exact absurd h (by decide)
  | cons x tl => exact ⟨x, tl, rfl, h⟩

/-- A string that starts with a valid escape decodes to fewer bytes. -/
theorem url_decode_escape_length_lt (x y : Nat) (rest : List Nat)
    (hx : isxdigit x = true) (hy : isxdigit y = true) :
    (url_decode (37 :: x :: y :: rest)).length < (37 :: x :: y :: rest).length := by
  rw [url_decode_escape x y rest hx hy]
  have := url_decode_length_le rest
  simp only [List.length_cons]
  omega

theorem has_escape_cons (c : Nat) (rest : List Nat)
    (hne : ¬ (c = 37 ∧ isxdigit (rest.headD 0) = true ∧ isxdigit (rest.tail.headD 0) = true)) :
    has_escape (c :: rest) ↔ has_escape rest := by
  unfold has_escape
  constructor
  · rintro ⟨x, y, hx, hy, hin⟩
    rw [List.infix_cons_iff] at hin
    rcases hin with hpre | hin
    · exfalso
      obtain ⟨t, ht⟩ := hpre
      simp only [List.cons_append, List.nil_append, List.cons.injEq] at ht
      obtain ⟨h1, h2⟩ := ht
      apply hne
      rw [← h2]
      exact ⟨h1.symm, hx, hy⟩
    · exact ⟨x, y, hx, hy, hin⟩
  · rintro ⟨x, y, hx, hy, hin⟩
    exact ⟨x, y, hx, hy, List.infix_cons hin⟩

theorem url_decode_length_eq_iff (src : List Nat) :
    (∀ c ∈ src, c ≠ 0) → ((url_decode src).length = src.length ↔ ¬ has_escape src) := by
  induction src using url_decode.induct with
  | case1 =>
    intro _
    rw [url_decode_nil]
    constructor
    · intro _ h
      obtain ⟨x, y, _, _, hin⟩ := h
      have := List.IsInfix.length_le hin
      simp at this
    · intro _; rfl
  | case2 rest =>
    intro h0
    exact absurd rfl (h0 0 (List.mem_cons_self _ _))
  | case3 c rest hc a b hcond ih =>
    intro _
    obtain ⟨hc37, _, _, ha, hb⟩ : c = 37 ∧ rest.headD 0 ≠ 0 ∧ rest.tail.headD 0 ≠ 0
        ∧ isxdigit (rest.headD 0) = true ∧ isxdigit (rest.tail.headD 0) = true := hcond
    obtain ⟨x, tl, hrest, hx⟩ := headD_of_isxdigit rest ha
    subst hrest
    obtain ⟨y, tl', htl, hy⟩ := headD_of_isxdigit tl hb
    subst htl
    subst hc37
    have hlt := url_decode_escape_length_lt x y tl' hx hy
    constructor
    · intro he; omega
    · intro hno
      exact absurd ⟨x, y, hx, hy,
        (show [37, x, y] <+: 37 :: x :: y :: tl' from ⟨tl', rfl⟩).isInfix⟩ hno
  | case4 rest a b _ hcond ih =>
    intro h0
    have hne : ¬ ((43 : Nat) = 37 ∧ isxdigit (rest.headD 0) = true
        ∧ isxdigit (rest.tail.headD 0) = true) := fun h => absurd h.1 (by decide)
    rw [url_decode_plus, has_escape_cons 43 rest hne,
      ← ih (fun c hc => h0 c (List.mem_cons_of_mem _ hc))]
    simp only [List.length_cons]
    omega
  | case5 c rest hc a b hcond h43 ih =>
    intro h0
    have hne : ¬ (c = 37 ∧ isxdigit (rest.headD 0) = true
        ∧ isxdigit (rest.tail.headD 0) = true) :=
      fun h => hcond ⟨h.1, by have := isxdigit_lt _ h.2.1; omega,
        by have := isxdigit_lt _ h.2.2; omega, h.2.1, h.2.2⟩
    rw [url_decode_copy c rest hc h43 hne, has_escape_cons c rest hne,
      ← ih (fun c hc => h0 c (List.mem_cons_of_mem _ hc))]
    simp only [List.length_cons]
    omega

/-- C16: for a string `src` without a NUL byte before its terminator,
`url_decode` (a total function, so the loop terminates) writes at most
`strlen(src)` bytes before the final NUL, and exactly that many when and only
when `src` contains no '%' followed by two hexadecimal digits. A '%XY' with
hexadecimal digits X, Y of either case becomes the single byte
16 * hexval(X) + hexval(Y), a '+' becomes a space, and every other byte is
copied. -/
theorem url_decode_no_longer (src : List Nat) (h0 : ∀ c ∈ src, c ≠ 0) :
    (url_decode src).length ≤ src.length
      ∧ (url_decode src).length + 1 ≤ src.length + 1
      ∧ ((url_decode src).length = src.length ↔ ¬ has_escape src)
      ∧ (∀ x y rest, isxdigit x = true → isxdigit y = true →
          url_decode (37 :: x :: y :: rest) = (16 * hexval x + hexval y) :: url_decode rest
            ∧ 16 * hexval x + hexval y < 256)
      ∧ (∀ rest, url_decode (43 :: rest) = 32 :: url_decode rest)
      ∧ ∀ c rest, c ≠ 0 → c ≠ 43 →
          ¬ (c = 37 ∧ isxdigit (rest.headD 0) = true ∧ isxdigit (rest.tail.headD 0) = true) →
          url_decode (c :: rest) = c :: url_decode rest := by
  refine ⟨url_decode_length_le src, Nat.succ_le_succ (url_decode_length_le src),
    url_decode_length_eq_iff src h0, ?_, url_decode_plus, url_decode_copy⟩
  intro x y rest hx hy
  refine ⟨url_decode_escape x y rest hx hy, ?_⟩
  rw [← hex_byte x y hx hy]
  exact Nat.mod_lt _ (by decide)

/-- Witness of C16: the string "%4a+x%" decodes to "J x%", one escape and so
two bytes shorter. -/
theorem url_decode_no_longer_witness :
    (∀ c ∈ [37, 52, 97, 43, 120, 37], c ≠ 0)
      ∧ (url_decode [37, 52, 97, 43, 120, 37]).length ≤ [37, 52, 97, 43, 120, 37].length
      ∧ url_decode [37, 52, 97, 43, 120, 37] = [74, 32, 120, 37] := by
  refine ⟨by decide, (url_decode_no_longer [37, 52, 97, 43, 120, 37] (by decide)).1, ?_⟩
  simp [url_decode, isxdigit, hex_nibble, tolower]

/-! ## Theorems: no torn fetch -/

theorem no_time_stores_refine (s : State) :
    no_time_stores.foldl FieldWrite.apply s.tube_list = (no_time s).tube_list := rfl

theorem display_time_stores_refine (tmv : Tm) (t : Int) (s : State) :
    (display_time_stores tmv t).foldl FieldWrite.apply s.tube_list
      = (display_time tmv t s).tube_list := by
  simp only [display_time_stores, display_time]
  split <;> rfl

theorem pass_stores_refine (p : Pass) (s : State) :
    (pass_stores p).foldl FieldWrite.apply s.tube_list = (pass_seq s p).tube_list := by
  unfold pass_stores pass_seq display_task_cycle
  cases hts : p.time_set with
  | false => exact no_time_stores_refine { s with time_set := false }
  | true => exact display_time_stores_refine p.tmv p.t_us { s with time_set := true }

theorem frames_after_succ (s : State) (P : List Pass) (k : Nat) (p : Pass) (ps : List Pass)
    (h : P.drop k = p :: ps) :
    frames_after s (P.take (k + 1)) = pass_seq (frames_after s (P.take k)) p
      ∧ P.drop (k + 1) = ps ∧ k < P.length := by
  have hk : k < P.length := by
    by_contra hc
    rw [List.drop_of_length_le (by omega)] at h
    exact absurd h (by simp)
  have hp : P[k] = p := by
    have := List.drop_eq_getElem_cons hk
    rw [h] at this
    exact (List.cons.inj this).1.symm
  refine ⟨?_, ?_, hk⟩
  · unfold frames_after
    rw [List.take_succ, List.foldl_append]
    simp [List.getElem?_eq_getElem hk, hp]
  · have := List.drop_eq_getElem_cons hk
    rw [h] at this
    exact (List.cons.inj this).2.symm

theorem conc_inv_init (s : State) (P : List Pass) : conc_inv s P (conc_init s P) :=
  ⟨fun _ h => absurd h (List.not_mem_nil _), 0, Nat.zero_le _, ⟨rfl, rfl⟩, trivial⟩

theorem task_step_inv (s : State) (P : List Pass) (c : Conc) (h : conc_inv s P c) :
    conc_inv s P (task_step c) := by
  obtain ⟨hf, k, hk, hT, hI⟩ := h
  unfold task_step
  cases hT' : c.task with
  | none =>
    rw [hT'] at hT
    obtain ⟨hpass, htl⟩ := hT
    cases hP : c.passes with
    | nil =>
      refine ⟨hf, k, hk, ?_, hI⟩
      rw [hT']
      exact ⟨hpass, htl⟩
    | cons p ps =>
      cases hh : isr_holds c with
      | true =>
        simp only [if_true]
        refine ⟨hf, k, hk, ?_, hI⟩
        rw [hT']
        exact ⟨hpass, htl⟩
      | false =>
        simp only [Bool.false_eq_true, if_false]
        rw [hP] at hpass
        obtain ⟨e1, e2, e3⟩ := frames_after_succ s P k p ps hpass.symm
        refine ⟨hf, k, hk, ⟨e3, e2.symm, ?_, hh⟩, ?_⟩
        · show (pass_stores p).foldl FieldWrite.apply c.tube_list = _
          rw [e1, htl]
          exact pass_stores_refine p _
        · show (match c.isr with
            | .have_digit i d => d = ((frames_after s (P.take k)).tube_list i).digit
            | .have_both i d dt => d = ((frames_after s (P.take k)).tube_list i).digit
                ∧ dt = ((frames_after s (P.take k)).tube_list i).dot
            | _ => True)
          exact hI
  | some rest =>
    rw [hT'] at hT
    obtain ⟨hlt, hpass, hfold, hh⟩ := hT
    have hI' : ∀ k', (match c.isr with
        | .have_digit i d => d = ((frames_after s (P.take k')).tube_list i).digit
        | .have_both i d dt => d = ((frames_after s (P.take k')).tube_list i).digit
            ∧ dt = ((frames_after s (P.take k')).tube_list i).dot
        | _ => True) := by
      intro k'
      unfold isr_holds at hh
      cases hi : c.isr <;> rw [hi] at hh <;> trivial
    cases rest with
    | nil =>
      exact ⟨hf, k + 1, hlt, ⟨hpass, hfold⟩, hI' (k + 1)⟩
    | cons w rest =>
      exact ⟨hf, k, hk, ⟨hlt, hpass, hfold, hh⟩, hI⟩

theorem isr_step_inv (s : State) (P : List Pass) (c : Conc) (h : conc_inv s P c) :
    conc_inv s P (isr_step c) := by
  obtain ⟨hf, k, hk, hT, hI⟩ := h
  have hnone : isr_holds c = true →
      c.passes = P.drop k ∧ c.tube_list = (frames_after s (P.take k)).tube_list := by
    intro hh
    cases hT' : c.task with
    | none => rw [hT'] at hT; exact hT
    | some rest =>
      rw [hT'] at hT
      rw [hT.2.2.2] at hh
      exact absurd hh (by decide)
  unfold isr_step
  cases hi : c.isr with
  | idle =>
    refine ⟨hf, k, hk, ?_, trivial⟩
    cases hT' : c.task with
    | none => rw [hT'] at hT; exact hT
    | some rest =>
      rw [hT'] at hT
      exact ⟨hT.1, hT.2.1, hT.2.2.1, rfl⟩
  | waiting i =>
    cases hT' : c.task with
    | none =>
      rw [hT'] at hT
      exact ⟨hf, k, hk, hT, trivial⟩
    | some rest =>
      refine ⟨hf, k, hk, ?_, ?_⟩
      · simp only [Option.isSome_some, if_true]
        exact hT
      · simp only [Option.isSome_some, if_true]
        exact hI
  | entered i =>
    have hh : isr_holds c = true := by unfold isr_holds; rw [hi]
    obtain ⟨hp, htl⟩ := hnone hh
    refine ⟨hf, k, hk, ?_, ?_⟩
    · cases hT' : c.task with
      | none => exact ⟨hp, htl⟩
      | some rest =>
        rw [hT'] at hT
        rw [hT.2.2.2] at hh
        exact absurd hh (by decide)
    · show (c.tube_list i).digit = _
      rw [htl]
  | have_digit i d =>
    have hh : isr_holds c = true := by unfold isr_holds; rw [hi]
    obtain ⟨hp, htl⟩ := hnone hh
    rw [hi] at hI
    refine ⟨hf, k, hk, ?_, ?_⟩
    · cases hT' : c.task with
      | none => exact ⟨hp, htl⟩
      | some rest =>
        rw [hT'] at hT
        rw [hT.2.2.2] at hh
        exact absurd hh (by decide)
    · show d = _ ∧ (c.tube_list i).dot = _
      rw [htl]
      exact ⟨hI, rfl⟩
  | have_both i d dt =>
    have hh : isr_holds c = true := by unfold isr_holds; rw [hi]
    obtain ⟨hp, htl⟩ := hnone hh
    rw [hi] at hI
    refine ⟨?_, k, hk, ?_, trivial⟩
    · intro f hfm
      rcases List.mem_cons.mp hfm with he | hm
      · rw [he]
        have hlen : c.passes.length = P.length - k := by rw [hp, List.length_drop]
        have hk' : P.length - c.passes.length = k := by omega
        refine ⟨by show c.passes.length ≤ P.length; omega, ?_, ?_⟩
        · show d = ((frames_after s (P.take (P.length - c.passes.length))).tube_list i).digit
          rw [hk']
          exact hI.1
        · show dt = ((frames_after s (P.take (P.length - c.passes.length))).tube_list i).dot
          rw [hk']
          exact hI.2
      · exact hf f hm
    · cases hT' : c.task with
      | none => exact ⟨hp, htl⟩
      | some rest =>
        rw [hT'] at hT
        rw [hT.2.2.2] at hh
        exact absurd hh (by decide)

theorem conc_run_inv (s : State) (P : List Pass) (sched : List Thread) :
    ∀ c : Conc, conc_inv s P c → conc_inv s P (conc_run c sched) := by
  induction sched with
  | nil => intro c h; exact h
  | cons t sched ih =>
    intro c h
    cases t with
    | task => exact ih _ (task_step_inv s P c h)
    | isr => exact ih _ (isr_step_inv s P c h)

/-- C11: in every interleaving of the steps of the formatter task (its
passes, each a critical section around the eight field stores of `no_time` or
`display_time`) with the steps of the fetch of `isr_tubes` (a critical section
around the reads of `digit` and `dot`), at every point of the run, with `k`
the number of passes the task has completed: outside its critical section the
task leaves `tube_list` as a whole as after `k` passes run without
interruption; inside it the handler does not hold the lock; so whenever the
handler holds the lock the task is outside and all four tubes are as after
`k` whole passes, and what the handler has read are fields of that
`tube_list`. Every completed fetch shows the two fields of its tube as after
exactly the passes that were complete when it was made. The stores of a pass,
applied in order, give the `tube_list` of the pass run without
interruption. -/
theorem fetch_never_torn (s : State) (passes : List Pass) (sched : List Thread) (c : Conc)
    (hc : c = conc_run (conc_init s passes) sched) :
    (∀ (p : Pass) (s' : State),
        (pass_stores p).foldl FieldWrite.apply s'.tube_list = (pass_seq s' p).tube_list)
      ∧ (∀ f ∈ c.fetched, f.pending ≤ passes.length
          ∧ f.digit = ((frames_after s
              (passes.take (passes.length - f.pending))).tube_list f.tube).digit
          ∧ f.dot = ((frames_after s
              (passes.take (passes.length - f.pending))).tube_list f.tube).dot)
      ∧ ∃ k, k ≤ passes.length
        ∧ (c.task = none →
            c.passes = passes.drop k
              ∧ c.tube_list = (frames_after s (passes.take k)).tube_list)
        ∧ (∀ rest, c.task = some rest →
            isr_holds c = false ∧ k < passes.length ∧ c.passes = passes.drop (k + 1)
              ∧ rest.foldl FieldWrite.apply c.tube_list
                  = (frames_after s (passes.take (k + 1))).tube_list)
        ∧ (isr_holds c = true →
            c.task = none ∧ c.passes = passes.drop k
              ∧ c.tube_list = (frames_after s (passes.take k)).tube_list)
        ∧ (∀ i d, c.isr = IsrPc.have_digit i d → d = (c.tube_list i).digit)
        ∧ (∀ i d dt, c.isr = IsrPc.have_both i d dt →
            d = (c.tube_list i).digit ∧ dt = (c.tube_list i).dot) := by
  have hinv : conc_inv s passes c := by
    rw [hc]
    exact conc_run_inv s passes sched _ (conc_inv_init s passes)
  obtain ⟨hf, k, hk, hT, hI⟩ := hinv
  have hholds : isr_holds c = true →
      c.task = none ∧ c.passes = passes.drop k
        ∧ c.tube_list = (frames_after s (passes.take k)).tube_list := by
    intro hh
    cases hT' : c.task with
    | none => rw [hT'] at hT; exact ⟨rfl, hT.1, hT.2⟩
    | some rest =>
      rw [hT'] at hT
      rw [hT.2.2.2] at hh
      exact absurd hh (by decide)
  refine ⟨pass_stores_refine, hf, k, hk, ?_, ?_, hholds, ?_, ?_⟩
  · intro hn
    rw [hn] at hT
    exact hT
  · intro rest hr
    rw [hr] at hT
    exact ⟨hT.2.2.2, hT.1, hT.2.1, hT.2.2.1⟩
  · intro i d hi
    have hh : isr_holds c = true := by unfold isr_holds; rw [hi]
    rw [hi] at hI
    rw [(hholds hh).2.2]
    exact hI
  · intro i d dt hi
    have hh : isr_holds c = true := by unfold isr_holds; rw [hi]
    rw [hi] at hI
    rw [(hholds hh).2.2]
    exact hI

/-- Witness of C11: after start-up one pass writes 14:07:30; the handler
advances to tube 0 and has to wait while the task is inside its critical
section, then fetches (1, LOW), the fields of tube 0 after the whole pass,
with no pass pending. -/
theorem fetch_never_torn_witness :
    (⟨0, 1, 0, 0⟩ : Fetch) ∈ (conc_run (conc_init (init ⟨0, 0⟩) [⟨true, ⟨30, 7, 14, 9, 2⟩, 0⟩])
        [.task, .task, .task, .isr, .isr, .isr, .task, .task, .task, .task, .task, .task,
         .task, .isr, .isr, .isr, .isr]).fetched
      ∧ 1 = ((frames_after (init ⟨0, 0⟩)
            (([⟨true, ⟨30, 7, 14, 9, 2⟩, 0⟩] : List Pass).take (1 - 0))).tube_list 0).digit
      ∧ 0 = ((frames_after (init ⟨0, 0⟩)
            (([⟨true, ⟨30, 7, 14, 9, 2⟩, 0⟩] : List Pass).take (1 - 0))).tube_list 0).dot :=
  ⟨by decide,
    ((fetch_never_torn (init ⟨0, 0⟩) [⟨true, ⟨30, 7, 14, 9, 2⟩, 0⟩]
      [.task, .task, .task, .isr, .isr, .isr, .task, .task, .task, .task, .task, .task,
       .task, .isr, .isr, .isr, .isr] _ rfl).2.1 ⟨0, 1, 0, 0⟩ (by decide)).2⟩

/-- While the task is inside its critical section the handler does not get
past `portENTER_CRITICAL_ISR`: after the task has entered and done one store,
three steps of the handler leave it waiting with nothing fetched. -/
theorem isr_waits_inside_write :
    (conc_run (conc_init (init ⟨0, 0⟩) [⟨true, ⟨30, 7, 14, 9, 2⟩, 0⟩])
        [.task, .task, .isr, .isr, .isr]).isr = IsrPc.waiting 0
      ∧ (conc_run (conc_init (init ⟨0, 0⟩) [⟨true, ⟨30, 7, 14, 9, 2⟩, 0⟩])
        [.task, .task, .isr, .isr, .isr]).fetched = [] := by
  decide

end IV3Clock

